import Mathlib

set_option maxRecDepth 8000

/-!
Shallow embedding of the consensus core of a simplified Bitcoin-style ledger
(Rust workspace with crates `lib`, `node`, `miner`, `wallet`).

Modelling conventions:
* machine integers (`u64`, `u32`, `usize`, the 256-bit `U256`) are `Nat`;
  where wrap-around or panics matter they are noted at the definition;
* `chrono::DateTime<Utc>` is an `Int` counting nanoseconds since the epoch;
  `TimeDelta::num_seconds` truncates toward zero, hence `Int.tdiv`;
* SHA-256 hashing (`Hash::hash` on the various serialisable types) and ECDSA
  signature verification are opaque to the program logic; they are modelled by
  an explicit deterministic oracle (`HashModel`) threaded through every
  function in which the Rust code calls them;
* `HashMap` fields are association lists; only key lookup, key-preserving
  update and value sums are observed by the verified functions, so the list
  order is never load-bearing;
* fallible functions return `Except BtcError`; functions taking `&mut self`
  in Rust additionally return the post-state.
-/

/-- Constant `INITIAL_REWARD` from `lib/src/lib.rs` (reward in whole coins). -/
def INITIAL_REWARD : Nat := 50

/-- Constant `HALVING_INTERVAL` from `lib/src/lib.rs`. -/
def HALVING_INTERVAL : Nat := 210000

/-- Constant `IDEAL_BLOCK_TIME` (seconds) from `lib/src/lib.rs`. -/
def IDEAL_BLOCK_TIME : Nat := 600

/-- Constant `DIFFICULTY_UPDATE_INTERVAL` from `lib/src/lib.rs`. -/
def DIFFICULTY_UPDATE_INTERVAL : Nat := 2016

/-- Constant `MAX_MEMPOOL_TX_AGE` (seconds) from `lib/src/lib.rs`. -/
def MAX_MEMPOOL_TX_AGE : Nat := 600

/-- Constant `MIN_TARGET` from `lib/src/lib.rs`: the `U256` with limbs
`[0xFFFFFFFFFFFFFFFF, 0xFFFFFFFFFFFFFFFF, 0xFFFFFFFFFFFFFFFF, 0x0000FFFFFFFFFFFF]`
(least-significant first), i.e. `2 ^ 240 - 1`. -/
def MIN_TARGET : Nat := 2 ^ 240 - 1

/-- Hash values (`custom_sha_types/hash.rs`): the 256-bit integer obtained by
interpreting the SHA-256 digest big-endian. Modelled as `Nat`. -/
abbrev Hash := Nat

/-- Unsigned 256-bit integers (`construct_uint!` in `lib.rs`), modelled as
`Nat`; arithmetic used by the embedded functions stays within 256 bits on the
inputs our theorems quantify over (`uint` panics on overflow). -/
abbrev U256 := Nat

/-- Function `Hash::matches_target` from `custom_sha_types/hash.rs`:
`self.0 <= target`. -/
def Hash.matches_target (h : Hash) (target : U256) : Bool :=
  h ≤ target

/-- Struct `TransactionOutput` (`types/transaction_output.rs`).  The UUID and
the compressed-point public key are opaque scalars to the consensus logic and
are modelled as `Nat`. -/
structure TransactionOutput where
  value : Nat
  unique_id : Nat
  pubkey : Nat
  deriving DecidableEq, Repr, Inhabited

/-- Struct `TransactionInput` (`types/transaction_input.rs`); the ECDSA
signature is an opaque scalar. -/
structure TransactionInput where
  prev_transaction_output_hash : Hash
  signature : Nat
  deriving DecidableEq, Repr, Inhabited

/-- Struct `Transaction` (`types/transaction.rs`). -/
structure Transaction where
  inputs : List TransactionInput
  outputs : List TransactionOutput
  deriving DecidableEq, Repr, Inhabited

/-- Struct `BlockHeader` (`types/block_header.rs`); `merkle_root` is the
wrapped hash of the `MerkleRoot` newtype. -/
structure BlockHeader where
  timestamp : Int
  nonce : Nat
  prev_block_hash : Hash
  merkle_root : Hash
  target : U256
  deriving DecidableEq, Repr, Inhabited

/-- Struct `Block` (`types/block.rs`). -/
structure Block where
  header : BlockHeader
  transactions : List Transaction
  deriving DecidableEq, Repr, Inhabited

/-- Oracle bundling the opaque cryptographic primitives: the SHA-256 based
`Hash::hash` instantiated at each serialisable type the consensus core hashes
(headers, transactions, outputs, and the two-element hash arrays used by the
Merkle computation), and `Signature::verify(message_hash, pubkey)`. -/
structure HashModel where
  hashHeader : BlockHeader → Hash
  hashTx : Transaction → Hash
  hashOutput : TransactionOutput → Hash
  hashPair : Hash → Hash → Hash
  sigVerify : Nat → Hash → Nat → Bool

/-- Chain-core error kinds. Modelled from the spec: the repository's
`lib/src/error.rs` (declared by `lib.rs` as `pub mod error`) is not present
under `src/`; the variants are the ones the spec's error-handling design lists
and the ones the sources under `src/` construct. -/
inductive BtcError where
  | InvalidBlock
  | InvalidBlockHeader
  | InvalidMerkleRoot
  | InvalidTransaction
  | InvalidSignature
  | DoubleSpending
  deriving DecidableEq, Repr

/-- UTXO index of the blockchain: `HashMap<Hash, (bool, TransactionOutput)>`
modelled as an association list (the `bool` is the soft-reservation flag). -/
abbrev Utxos := List (Hash × Bool × TransactionOutput)

/-- Lookup in the UTXO index (`HashMap::get`). -/
def Utxos.lookup (u : Utxos) (h : Hash) : Option (Bool × TransactionOutput) :=
  match u with
  | [] => none
  | e :: rest => if e.1 = h then some e.2 else Utxos.lookup rest h

/-- Key-membership test in the UTXO index (`HashMap::contains_key`). -/
def Utxos.contains_key (u : Utxos) (h : Hash) : Bool :=
  (Utxos.lookup u h).isSome

/-- Models `self.utxos.entry(h).and_modify(|(marked, _)| *marked = false)`:
clears the reservation flag of the entry with key `h`, if present. -/
def Utxos.set_unreserved (u : Utxos) (h : Hash) : Utxos :=
  u.map (fun e => if e.1 = h then (e.1, false, e.2.2) else e)

/-- Removal from the UTXO index (`HashMap::remove`). -/
def Utxos.remove (u : Utxos) (h : Hash) : Utxos :=
  u.filter (fun e => e.1 ≠ h)

/-- Insertion into the UTXO index (`HashMap::insert` / `extend`): replaces an
existing binding of the key. -/
def Utxos.insert (u : Utxos) (h : Hash) (v : Bool × TransactionOutput) : Utxos :=
  Utxos.remove u h ++ [(h, v)]

/-- Sum of the `value` fields of a list of outputs (the
`map(|output| output.value()).sum::<u64>()` pattern). -/
def sum_values (outs : List TransactionOutput) : Nat :=
  (outs.map TransactionOutput.value).sum

/-- Key-membership in an auxiliary `HashMap<Hash, TransactionOutput>`
(association list). -/
def assoc_contains (m : List (Hash × TransactionOutput)) (h : Hash) : Bool :=
  match m with
  | [] => false
  | e :: rest => if e.1 = h then true else assoc_contains rest h

/-- Sum of the values of an auxiliary `HashMap<Hash, TransactionOutput>`
(`values().map(|o| o.value()).sum()`; the embedded code only builds such maps
with pairwise-distinct keys, so the list sum agrees with the map sum). -/
def assoc_values_sum (m : List (Hash × TransactionOutput)) : Nat :=
  (m.map (fun e => e.2.value)).sum

/-- One pairing pass of `MerkleRoot::calculate` (`utils/merkle_root.rs`):
`chunks(2)` hashing each ordered pair, an odd trailing element paired with
itself. -/
def MerkleRoot.pair_layer (hm : HashModel) : List Hash → List Hash
  | [] => []
  | [x] => [hm.hashPair x x]
  | x :: y :: rest => hm.hashPair x y :: MerkleRoot.pair_layer hm rest

/-- Loop `while layer.len() > 1` of `MerkleRoot::calculate` with an explicit
fuel argument (each pass at least halves a layer of two or more hashes, so a
fuel equal to the initial layer length always suffices; the fuel exists only
to make the recursion structural, it never runs out on the real iterations). -/
def MerkleRoot.reduce_fuel (hm : HashModel) : Nat → List Hash → Hash
  | 0, layer => layer.headD 0
  | fuel + 1, layer =>
    match layer with
    | [] => 0
    | [x] => x
    | x :: y :: rest => MerkleRoot.reduce_fuel hm fuel (MerkleRoot.pair_layer hm (x :: y :: rest))

/-- Loop `while layer.len() > 1` of `MerkleRoot::calculate`, followed by
`layer[0]`.  On an empty layer the Rust code panics (index out of bounds); the
embedding returns `0` there and no theorem relies on that case. -/
def MerkleRoot.reduce (hm : HashModel) (layer : List Hash) : Hash :=
  MerkleRoot.reduce_fuel hm layer.length layer

/-- Function `MerkleRoot::calculate` (`utils/merkle_root.rs`): hash every
transaction into the leaf layer, then reduce. -/
def MerkleRoot.calculate (hm : HashModel) (transactions : List Transaction) : Hash :=
  MerkleRoot.reduce hm (transactions.map hm.hashTx)

/-- Inner input loop of `Block::verify_transactions` (`types/block.rs`):
resolve the referenced output in `utxos` (missing: `InvalidTransaction`),
reject a hash already in the block-wide `inputs` map (`DoubleSpending`),
verify the signature over the referenced output hash against the referenced
output's pubkey (`InvalidSignature`), then accumulate the input value and
record the hash. -/
def Block.verify_inputs (hm : HashModel) (utxos : Utxos) :
    List TransactionInput → List (Hash × TransactionOutput) → Nat →
    Except BtcError (Nat × List (Hash × TransactionOutput))
  | [], seen, acc => .ok (acc, seen)
  | inp :: rest, seen, acc =>
    match Utxos.lookup utxos inp.prev_transaction_output_hash with
    | none => .error .InvalidTransaction
    | some (_, prev_output) =>
      if assoc_contains seen inp.prev_transaction_output_hash then .error .DoubleSpending
      else if ¬ hm.sigVerify inp.signature inp.prev_transaction_output_hash prev_output.pubkey then
        .error .InvalidSignature
      else
        Block.verify_inputs hm utxos rest
          ((inp.prev_transaction_output_hash, prev_output) :: seen) (acc + prev_output.value)

/-- Outer transaction loop of `Block::verify_transactions`.  Note that the
Rust loop `for transaction in &self.transactions` runs over every transaction
of the block, the coinbase included, and ends each iteration with
`if input_value < output_value { return Err(InvalidTransaction) }`. -/
def Block.verify_tx_loop (hm : HashModel) (utxos : Utxos) :
    List Transaction → List (Hash × TransactionOutput) → Except BtcError Unit
  | [], _ => .ok ()
  | tx :: rest, seen =>
    match Block.verify_inputs hm utxos tx.inputs seen 0 with
    | .error e => .error e
    | .ok (input_value, seen') =>
      if input_value < sum_values tx.outputs then .error .InvalidTransaction
      else Block.verify_tx_loop hm utxos rest seen'

/-- Input half of `Block::calculated_miner_fees` for one transaction: a hash
already in the `inputs` map is `DoubleSpending` (checked before resolution),
an unresolved hash is `InvalidTransaction`. -/
def Block.fees_inputs (utxos : Utxos) :
    List TransactionInput → List (Hash × TransactionOutput) →
    Except BtcError (List (Hash × TransactionOutput))
  | [], ins => .ok ins
  | inp :: rest, ins =>
    if assoc_contains ins inp.prev_transaction_output_hash then .error .DoubleSpending
    else
      match Utxos.lookup utxos inp.prev_transaction_output_hash with
      | none => .error .InvalidTransaction
      | some (_, prev_output) =>
        Block.fees_inputs utxos rest ((inp.prev_transaction_output_hash, prev_output) :: ins)

/-- Output half of `Block::calculated_miner_fees` for one transaction:
`outputs.insert(output.hash(), output)` returning an old binding is
`DoubleSpending`. -/
def Block.fees_outputs (hm : HashModel) :
    List TransactionOutput → List (Hash × TransactionOutput) →
    Except BtcError (List (Hash × TransactionOutput))
  | [], outs => .ok outs
  | o :: rest, outs =>
    if assoc_contains outs (hm.hashOutput o) then .error .DoubleSpending
    else Block.fees_outputs hm rest ((hm.hashOutput o, o) :: outs)

/-- Loop of `Block::calculated_miner_fees` over the non-coinbase transactions,
threading the block-wide `inputs` and `outputs` maps. -/
def Block.fees_scan (hm : HashModel) (utxos : Utxos) :
    List Transaction → List (Hash × TransactionOutput) → List (Hash × TransactionOutput) →
    Except BtcError (List (Hash × TransactionOutput) × List (Hash × TransactionOutput))
  | [], ins, outs => .ok (ins, outs)
  | tx :: rest, ins, outs =>
    match Block.fees_inputs utxos tx.inputs ins with
    | .error e => .error e
    | .ok ins' =>
      match Block.fees_outputs hm tx.outputs outs with
      | .error e => .error e
      | .ok outs' => Block.fees_scan hm utxos rest ins' outs'

/-- Function `Block::calculated_miner_fees` (`types/block.rs`): scan
`&self.transactions[1..]`, then `input_value.checked_sub(output_value)`
(`None`, i.e. outputs exceeding inputs, is `InvalidTransaction`).  On an empty
transaction list the Rust slice `[1..]` panics; the embedding's `List.tail`
yields the empty scan and no theorem relies on that case. -/
def Block.calculated_miner_fees (hm : HashModel) (b : Block) (utxos : Utxos) :
    Except BtcError Nat :=
  match Block.fees_scan hm utxos b.transactions.tail [] [] with
  | .error e => .error e
  | .ok (ins, outs) =>
    let input_value := assoc_values_sum ins
    let output_value := assoc_values_sum outs
    if input_value < output_value then .error .InvalidTransaction
    else .ok (input_value - output_value)

/-- Reward term computed inside `Block::verify_coinbase_transaction`:
`INITIAL_REWARD * 10u64.pow(8) / 2u64.pow(predicted_block_height / HALVING_INTERVAL)`.
For `predicted_block_height / HALVING_INTERVAL ≥ 64` the Rust `2u64.pow`
overflows and panics; theorems about it carry that bound as a hypothesis. -/
def block_reward (predicted_block_height : Nat) : Nat :=
  INITIAL_REWARD * 10 ^ 8 / 2 ^ (predicted_block_height / HALVING_INTERVAL)

/-- Function `Block::verify_coinbase_transaction` (`types/block.rs`).  On an
empty transaction list the Rust indexing `self.transactions[0]` panics; the
embedding returns `InvalidTransaction` there and no theorem relies on that
case (the only caller guards it). -/
def Block.verify_coinbase_transaction (hm : HashModel) (b : Block)
    (predicted_block_height : Nat) (utxos : Utxos) : Except BtcError Unit :=
  match b.transactions with
  | [] => .error .InvalidTransaction
  | coinbase :: _ =>
    if coinbase.inputs ≠ [] then .error .InvalidTransaction
    else if coinbase.outputs = [] then .error .InvalidTransaction
    else
      match Block.calculated_miner_fees hm b utxos with
      | .error e => .error e
      | .ok miner_fees =>
        if sum_values coinbase.outputs ≠ block_reward predicted_block_height + miner_fees then
          .error .InvalidTransaction
        else .ok ()

/-- Function `Block::verify_transactions` (`types/block.rs`): reject the empty
block, verify the coinbase, then run the transaction loop with an empty
block-wide `inputs` map. -/
def Block.verify_transactions (hm : HashModel) (b : Block)
    (predicted_block_height : Nat) (utxos : Utxos) : Except BtcError Unit :=
  if b.transactions = [] then .error .InvalidTransaction
  else
    match Block.verify_coinbase_transaction hm b predicted_block_height utxos with
    | .error e => .error e
    | .ok _ => Block.verify_tx_loop hm utxos b.transactions []

/-- Struct `Blockchain` (`types/blockchain.rs`), fields in declaration order;
the mempool entries pair the arrival timestamp with the transaction. -/
structure Blockchain where
  utxos : Utxos
  target : U256
  blocks : List Block
  mempool : List (Int × Transaction)
  deriving DecidableEq, Repr, Inhabited

/-- Model of `Blockchain::default()`. -/
def Blockchain.default_chain : Blockchain :=
  { utxos := [], target := MIN_TARGET, blocks := [], mempool := [] }

/-- Truncation of the decimal representation at the decimal point
(`new_target.to_string().split('.').next()`), i.e. rounding toward zero.  The
`BigDecimal` product `target * quotient` is exact (`BigDecimal`
multiplication loses no digits), so only the division needs a precision
model (`bigdec_div` below). -/
def decimal_truncate (q : ℚ) : Int :=
  q.num.tdiv (q.den : Int)

/-- Default precision of the `bigdecimal` crate: quotients are computed to
100 significant digits. -/
def BIGDECIMAL_PRECISION : Nat := 100

/-- Number of decimal digits of `n` (the crate's `count_decimal_digits`),
with an explicit fuel so the recursion is structural; `dec_digits` below
passes a fuel that never runs out. -/
def dec_digits_fuel : Nat → Nat → Nat
  | 0, _ => 1
  | fuel + 1, n => if n < 10 then 1 else 1 + dec_digits_fuel fuel (n / 10)

/-- Number of decimal digits of `n` (1 for `n < 10`). -/
def dec_digits (n : Nat) : Nat :=
  dec_digits_fuel n n

/-- Fuel-bounded form of the `while num < den { scale += 1; num *= 10 }` loop
opening the crate's `impl_division`. -/
def scale_up_fuel (d : Nat) : Nat → Nat → Nat
  | 0, _ => 0
  | fuel + 1, n => if d ≤ n then 0 else 1 + scale_up_fuel d fuel (n * 10)

/-- Number of decimal scalings needed before `n * 10 ^ u` reaches `d` (for
`n ≥ 1` the fuel `dec_digits d` always suffices, since
`10 ^ dec_digits d > d`). -/
def scale_up (n d : Nat) : Nat :=
  scale_up_fuel d (dec_digits d) n

/-- Mantissa and decimal scale of `n / d` as the `bigdecimal` crate's
`impl_division` computes them at its default precision.  Modelled from the
crate (the dependency is not vendored under `src/`): the numerator is scaled
up to the denominator, the quotient is emitted to `BIGDECIMAL_PRECISION`
significant digits, and the last kept digit is rounded up when the first
dropped digit is at least 5.  The returned `BigDecimal` has value
`mantissa / 10 ^ scale`.  A zero denominator panics in Rust; no theorem
touches that case. -/
def bigdec_div_mantissa (n d : Nat) : Nat × Nat :=
  let u := scale_up n d
  let digits0 := dec_digits (n * 10 ^ u / d)
  let s := u + (BIGDECIMAL_PRECISION - digits0)
  let m := n * 10 ^ s / d
  (if 5 ≤ n * 10 ^ s % d * 10 / d then m + 1 else m, s)

/-- Rational value of the `BigDecimal` quotient `n / d` at the crate's
default precision. -/
def bigdec_div_nat (n d : Nat) : ℚ :=
  ((bigdec_div_mantissa n d).1 : ℚ) / ((10 : ℚ) ^ (bigdec_div_mantissa n d).2)

/-- Signed `BigDecimal` division (the crate divides magnitudes and carries
the sign); every theorem about the retarget keeps the numerator
non-negative, since a negative quotient makes the Rust code panic later in
`U256::from_str_radix`. -/
def bigdec_div (n : Int) (d : Nat) : ℚ :=
  if 0 ≤ n then bigdec_div_nat n.toNat d else -(bigdec_div_nat (-n).toNat d)

/-- Function `Blockchain::try_adjust_target` (`types/blockchain.rs`).  The
list indexing is always in bounds in the non-early-return branch, so `getD`'s
defaults are never used.  The `BigDecimal` quotient
`time_diff_seconds / target_seconds` is computed by the crate's
precision-limited division (`bigdec_div`); the subsequent multiplication by
the target is exact.  When the truncated value is negative (the chain's
recorded timestamps running backwards across the window) the Rust code panics
in `U256::from_str_radix`; the embedding yields `Int.toNat`'s `0` there and
every theorem about this function assumes a non-negative time difference. -/
def Blockchain.try_adjust_target (bc : Blockchain) : Blockchain :=
  if bc.blocks = [] then bc
  else if bc.blocks.length % DIFFICULTY_UPDATE_INTERVAL ≠ 0 then bc
  else
    let start_time :=
      ((bc.blocks.getD (bc.blocks.length - DIFFICULTY_UPDATE_INTERVAL) default).header).timestamp
    let end_time := ((bc.blocks.getLast?.getD default).header).timestamp
    let time_diff_seconds : Int := (end_time - start_time).tdiv 1000000000
    let target_seconds : Nat := IDEAL_BLOCK_TIME * DIFFICULTY_UPDATE_INTERVAL
    let new_target_exact : ℚ :=
      (bc.target : ℚ) * bigdec_div time_diff_seconds target_seconds
    let new_target : U256 := (decimal_truncate new_target_exact).toNat
    let clamped : U256 :=
      if new_target < bc.target / 4 then bc.target / 4
      else if new_target > bc.target * 4 then bc.target * 4
      else new_target
    { bc with target := min clamped MIN_TARGET }

/-- Acceptance tail of `Blockchain::add_block`: drop every mempool entry whose
transaction hash occurs among the block's transaction hashes, push the block,
and call `try_adjust_target`. -/
def Blockchain.accept_block (hm : HashModel) (bc : Blockchain) (b : Block) :
    Except BtcError Unit × Blockchain :=
  let block_transactions := b.transactions.map hm.hashTx
  let mempool' := bc.mempool.filter (fun e => ! block_transactions.contains (hm.hashTx e.2))
  (.ok (), Blockchain.try_adjust_target
    { bc with mempool := mempool', blocks := bc.blocks ++ [b] })

/-- Function `Blockchain::add_block` (`types/blockchain.rs`).  The first
component is the Rust `Result<()>`, the second the post-state of `&mut self`
(on an early error return nothing has been mutated yet). -/
def Blockchain.add_block (hm : HashModel) (bc : Blockchain) (b : Block) :
    Except BtcError Unit × Blockchain :=
  match bc.blocks.getLast? with
  | none =>
    if b.header.prev_block_hash ≠ 0 then (.error .InvalidBlock, bc)
    else Blockchain.accept_block hm bc b
  | some last_block =>
    if b.header.prev_block_hash ≠ hm.hashHeader last_block.header then
      (.error .InvalidBlock, bc)
    else if ¬ Hash.matches_target (hm.hashHeader b.header) b.header.target then
      (.error .InvalidBlock, bc)
    else if MerkleRoot.calculate hm b.transactions ≠ b.header.merkle_root then
      (.error .InvalidMerkleRoot, bc)
    else if b.header.timestamp ≤ last_block.header.timestamp then
      (.error .InvalidBlockHeader, bc)
    else
      match Block.verify_transactions hm b bc.blocks.length bc.utxos with
      | .error e => (.error e, bc)
      | .ok _ => Blockchain.accept_block hm bc b

/-- Function `Blockchain::rebuild_utxos` (`types/blockchain.rs`): for every
transaction of every block in order, remove the UTXOs its inputs reference and
insert every output under the *transaction's* hash (the source keys all of a
transaction's outputs by `tx.hash()`, so later outputs overwrite earlier
ones). -/
def Blockchain.rebuild_utxos (hm : HashModel) (bc : Blockchain) : Blockchain :=
  let scan_tx := fun (u : Utxos) (tx : Transaction) =>
    let u := tx.inputs.foldl (fun u inp => Utxos.remove u inp.prev_transaction_output_hash) u
    tx.outputs.foldl (fun u o => Utxos.insert u (hm.hashTx tx) (false, o)) u
  let utxos' := bc.blocks.foldl (fun u blk => blk.transactions.foldl scan_tx u) bc.utxos
  { bc with utxos := utxos' }

/-- Validation loop at the top of `Blockchain::add_transaction_to_mempool`:
every input must resolve in `utxos` and be distinct from the ones before it
(`known_inputs`), both failures being `InvalidTransaction`. -/
def Blockchain.check_inputs (utxos : Utxos) :
    List TransactionInput → List Hash → Except BtcError Unit
  | [], _ => .ok ()
  | inp :: rest, known =>
    if ¬ Utxos.contains_key utxos inp.prev_transaction_output_hash then
      .error .InvalidTransaction
    else if known.contains inp.prev_transaction_output_hash then
      .error .InvalidTransaction
    else Blockchain.check_inputs utxos rest (inp.prev_transaction_output_hash :: known)

/-- Models `self.mempool.iter().enumerate().find(...)` of
`add_transaction_to_mempool`: the first mempool entry one of whose transaction
outputs hashes to `h`, split as (entries before it, the entry, entries after
it) so that `Vec::remove(idx)` is the concatenation of the two side lists. -/
def find_producer (hm : HashModel) (h : Hash) :
    List (Int × Transaction) →
    Option (List (Int × Transaction) × (Int × Transaction) × List (Int × Transaction))
  | [] => none
  | e :: rest =>
    if e.2.outputs.any (fun o => hm.hashOutput o == h) then some ([], e, rest)
    else
      match find_producer hm h rest with
      | none => none
      | some (pre, f, post) => some (e :: pre, f, post)

/-- Clears the reservation flag of every UTXO referenced by the inputs of
`tx` (the `for input in referencing_transaction.1.inputs()` loop). -/
def Blockchain.clear_reservations (utxos : Utxos) (tx : Transaction) : Utxos :=
  tx.inputs.foldl (fun u inp => Utxos.set_unreserved u inp.prev_transaction_output_hash) utxos

/-- Displacement loop of `add_transaction_to_mempool`: for every input of the
incoming transaction whose referenced UTXO is currently reserved, search the
mempool for the transaction that *produced* that UTXO (matched among its
outputs); if found, unreserve everything it consumed and remove it, otherwise
just unreserve the referenced UTXO. -/
def Blockchain.displace (hm : HashModel) :
    List TransactionInput → Utxos → List (Int × Transaction) →
    Utxos × List (Int × Transaction)
  | [], utxos, mempool => (utxos, mempool)
  | inp :: rest, utxos, mempool =>
    match Utxos.lookup utxos inp.prev_transaction_output_hash with
    | some (true, _) =>
      match find_producer hm inp.prev_transaction_output_hash mempool with
      | some (pre, f, post) =>
        Blockchain.displace hm rest (Blockchain.clear_reservations utxos f.2) (pre ++ post)
      | none =>
        Blockchain.displace hm rest
          (Utxos.set_unreserved utxos inp.prev_transaction_output_hash) mempool
    | _ => Blockchain.displace hm rest utxos mempool

/-- Miner fee of a mempool transaction as computed inside the `sort_by_key`
closure: sum of the referenced output values minus the sum of the own output
values.  The Rust lookup is `.expect("BUG: impossible")` (a missing UTXO
panics) and the subtraction is `u64` (underflow panics in debug builds); the
embedding uses `getD 0` and truncated subtraction, and every theorem touching
this function stays on inputs where neither case arises. -/
def Blockchain.mempool_fee (utxos : Utxos) (tx : Transaction) : Nat :=
  (tx.inputs.map (fun inp =>
    ((Utxos.lookup utxos inp.prev_transaction_output_hash).map (fun p => p.2.value)).getD 0)).sum
  - sum_values tx.outputs

/-- Insertion step of a stable descending-fee sort: the new element goes in
front of the first entry with a fee not larger than its own. -/
def insert_by_fee_desc (fee : Int × Transaction → Nat) (x : Int × Transaction) :
    List (Int × Transaction) → List (Int × Transaction)
  | [] => [x]
  | y :: ys => if fee x < fee y then y :: insert_by_fee_desc fee x ys else x :: y :: ys

/-- Models `self.mempool.sort_by_key(|tx| Reverse(miner_fee))`: Rust's sort is
stable, and a stable sort's output is uniquely determined by the key order, so
this stable insertion sort computes the same list. -/
def sort_by_fee_desc (fee : Int × Transaction → Nat) :
    List (Int × Transaction) → List (Int × Transaction)
  | [] => []
  | x :: xs => insert_by_fee_desc fee x (sort_by_fee_desc fee xs)

/-- Function `Blockchain::add_transaction_to_mempool` (`types/blockchain.rs`).
`now` is the `Utc::now()` arrival timestamp recorded with the transaction.
Note the displacement step's mutations persist even when the subsequent value
check fails (the Rust method takes `&mut self` and has already mutated). -/
def Blockchain.add_transaction_to_mempool (hm : HashModel) (now : Int)
    (bc : Blockchain) (transaction : Transaction) : Except BtcError Unit × Blockchain :=
  match Blockchain.check_inputs bc.utxos transaction.inputs [] with
  | .error e => (.error e, bc)
  | .ok _ =>
    let step := Blockchain.displace hm transaction.inputs bc.utxos bc.mempool
    let all_inputs := (transaction.inputs.map (fun inp =>
      ((Utxos.lookup step.1 inp.prev_transaction_output_hash).map (fun p => p.2.value)).getD 0)).sum
    let all_outputs := sum_values transaction.outputs
    if all_inputs < all_outputs then
      (.error .InvalidTransaction, { bc with utxos := step.1, mempool := step.2 })
    else
      let sorted := sort_by_fee_desc (fun e => Blockchain.mempool_fee step.1 e.2)
        (step.2 ++ [(now, transaction)])
      (.ok (), { bc with utxos := step.1, mempool := sorted })

/-- Conversion of an `i64` to `u64` by Rust's `as` cast (two's complement
reinterpretation), used on `num_seconds` in `cleanup_mempool`. -/
def int_as_u64 (i : Int) : Nat :=
  (i % (2 ^ 64)).toNat

/-- Function `Blockchain::cleanup_mempool` (`types/blockchain.rs`): retain
entries whose age in whole seconds (cast `as u64`) does not exceed
`MAX_MEMPOOL_TX_AGE`, and clear the reservation flag of every UTXO referenced
by an evicted transaction. -/
def Blockchain.cleanup_mempool (now : Int) (bc : Blockchain) : Blockchain :=
  let aged := fun (e : Int × Transaction) =>
    int_as_u64 ((now - e.1).tdiv 1000000000) > MAX_MEMPOOL_TX_AGE
  let evicted := bc.mempool.filter (fun e => aged e)
  { bc with
    mempool := bc.mempool.filter (fun e => ¬ aged e),
    utxos := evicted.foldl (fun u e => Blockchain.clear_reservations u e.2) bc.utxos }

/-- Enum `Message` (`network/message.rs`).  `PublicKey` payloads and the
address strings of `NodeList` are opaque to the protocol logic and are
modelled as `Nat` scalars. -/
inductive Message where
  | FetchUTXOs : Nat → Message
  | UTXOs : List (TransactionOutput × Bool) → Message
  | SubmitTransaction : Transaction → Message
  | NewTransaction : Transaction → Message
  | FetchTemplate : Nat → Message
  | Template : Block → Message
  | ValidateTemplate : Block → Message
  | TemplateValidity : Bool → Message
  | SubmitTemplate : Block → Message
  | DiscoverNodes : Message
  | NodeList : List Nat → Message
  | AskDifference : Nat → Message
  | Difference : Int → Message
  | FetchBlock : Nat → Message
  | NewBlock : Block → Message
  deriving DecidableEq, Repr

/-- Model of the CBOR documents `ciborium` reads and writes: unsigned and
signed integer leaves, booleans, arrays and maps.  The `key` constructor
stands for the serde identifier strings (struct field names and enum variant
names); each distinct identifier of one map is modelled by a distinct code,
listed at the respective encoder. -/
inductive CborValue where
  | nat : Nat → CborValue
  | int : Int → CborValue
  | bool : Bool → CborValue
  | key : Nat → CborValue
  | array : List CborValue → CborValue
  | map : List (CborValue × CborValue) → CborValue

/-- Decodes every element of a CBOR array with `dec`, failing if any element
fails (serde's `Vec<T>` deserialisation). -/
def decode_list (dec : CborValue → Option α) : List CborValue → Option (List α)
  | [] => some []
  | v :: rest =>
    match dec v with
    | none => none
    | some x =>
      match decode_list dec rest with
      | none => none
      | some xs => some (x :: xs)

/-- Serde encoding of `TransactionOutput` (field keys: 0 `value`,
1 `unique_id`, 2 `pubkey`). -/
def encode_output (o : TransactionOutput) : CborValue :=
  .map [(.key 0, .nat o.value), (.key 1, .nat o.unique_id), (.key 2, .nat o.pubkey)]

/-- Serde decoding of `TransactionOutput`. -/
def decode_output : CborValue → Option TransactionOutput
  | .map [(.key 0, .nat v), (.key 1, .nat u), (.key 2, .nat p)] => some ⟨v, u, p⟩
  | _ => none

/-- Serde encoding of `TransactionInput` (field keys:
0 `prev_transaction_output_hash`, 1 `signature`). -/
def encode_input (i : TransactionInput) : CborValue :=
  .map [(.key 0, .nat i.prev_transaction_output_hash), (.key 1, .nat i.signature)]

/-- Serde decoding of `TransactionInput`. -/
def decode_input : CborValue → Option TransactionInput
  | .map [(.key 0, .nat h), (.key 1, .nat s)] => some ⟨h, s⟩
  | _ => none

/-- Serde encoding of `Transaction` (field keys: 0 `inputs`, 1 `outputs`). -/
def encode_transaction (t : Transaction) : CborValue :=
  .map [(.key 0, .array (t.inputs.map encode_input)),
        (.key 1, .array (t.outputs.map encode_output))]

/-- Serde decoding of `Transaction`. -/
def decode_transaction : CborValue → Option Transaction
  | .map [(.key 0, .array ins), (.key 1, .array outs)] =>
    match decode_list decode_input ins with
    | none => none
    | some decoded_ins =>
      match decode_list decode_output outs with
      | none => none
      | some decoded_outs => some ⟨decoded_ins, decoded_outs⟩
  | _ => none

/-- Serde encoding of `BlockHeader` (field keys: 0 `timestamp`, 1 `nonce`,
2 `prev_block_hash`, 3 `merkle_root`, 4 `target`). -/
def encode_header (h : BlockHeader) : CborValue :=
  .map [(.key 0, .int h.timestamp), (.key 1, .nat h.nonce),
        (.key 2, .nat h.prev_block_hash), (.key 3, .nat h.merkle_root),
        (.key 4, .nat h.target)]

/-- Serde decoding of `BlockHeader`. -/
def decode_header : CborValue → Option BlockHeader
  | .map [(.key 0, .int ts), (.key 1, .nat n), (.key 2, .nat pv),
          (.key 3, .nat mr), (.key 4, .nat tg)] => some ⟨ts, n, pv, mr, tg⟩
  | _ => none

/-- Serde encoding of `Block` (field keys: 0 `header`, 1 `transactions`). -/
def encode_block (b : Block) : CborValue :=
  .map [(.key 0, encode_header b.header),
        (.key 1, .array (b.transactions.map encode_transaction))]

/-- Serde decoding of `Block`. -/
def decode_block : CborValue → Option Block
  | .map [(.key 0, hv), (.key 1, .array txs)] =>
    match decode_header hv with
    | none => none
    | some hd =>
      match decode_list decode_transaction txs with
      | none => none
      | some ts => some ⟨hd, ts⟩
  | _ => none

/-- Serde encoding of one entry of the `utxos` map:
`Hash ↦ (bool, TransactionOutput)`. -/
def encode_utxo_entry (e : Hash × Bool × TransactionOutput) : CborValue × CborValue :=
  (.nat e.1, .array [.bool e.2.1, encode_output e.2.2])

/-- Serde decoding of the entries of the `utxos` map. -/
def decode_utxo_entries : List (CborValue × CborValue) → Option Utxos
  | [] => some []
  | (.nat h, .array [.bool flag, ov]) :: rest =>
    match decode_output ov with
    | none => none
    | some o =>
      match decode_utxo_entries rest with
      | none => none
      | some es => some ((h, flag, o) :: es)
  | _ => none

/-- Serde encoding of `Blockchain` (field keys: 0 `utxos`, 1 `target`,
2 `blocks`). The `mempool` field carries `#[serde(default, skip_serializing)]`
and is therefore not emitted. -/
def encode_blockchain (bc : Blockchain) : CborValue :=
  .map [(.key 0, .map (bc.utxos.map encode_utxo_entry)),
        (.key 1, .nat bc.target),
        (.key 2, .array (bc.blocks.map encode_block))]

/-- Serde decoding of `Blockchain`: the absent `mempool` field takes its
`#[serde(default)]` value, the empty vector. -/
def decode_blockchain : CborValue → Option Blockchain
  | .map [(.key 0, .map us), (.key 1, .nat tg), (.key 2, .array bs)] =>
    match decode_utxo_entries us with
    | none => none
    | some utxos =>
      match decode_list decode_block bs with
      | none => none
      | some blocks => some ⟨utxos, tg, blocks, []⟩
  | _ => none

/-- Serde decoding of a bare `Nat` scalar (the modelled `PublicKey` and
address-string leaves). -/
def decode_scalar : CborValue → Option Nat
  | .nat n => some n
  | _ => none

/-- Serde encoding of one `(TransactionOutput, bool)` element of the `UTXOs`
payload. -/
def encode_output_flag (e : TransactionOutput × Bool) : CborValue :=
  .array [encode_output e.1, .bool e.2]

/-- Serde decoding of one `(TransactionOutput, bool)` element. -/
def decode_output_flag : CborValue → Option (TransactionOutput × Bool)
  | .array [ov, .bool b] =>
    match decode_output ov with
    | none => none
    | some o => some (o, b)
  | _ => none

/-- Serde encoding of `Message` (externally tagged; variant keys in
declaration order: 0 `FetchUTXOs` … 14 `NewBlock`; the unit variant
`DiscoverNodes` is encoded as its bare name). -/
def Message.encode : Message → CborValue
  | .FetchUTXOs pk => .map [(.key 0, .nat pk)]
  | .UTXOs us => .map [(.key 1, .array (us.map encode_output_flag))]
  | .SubmitTransaction t => .map [(.key 2, encode_transaction t)]
  | .NewTransaction t => .map [(.key 3, encode_transaction t)]
  | .FetchTemplate pk => .map [(.key 4, .nat pk)]
  | .Template b => .map [(.key 5, encode_block b)]
  | .ValidateTemplate b => .map [(.key 6, encode_block b)]
  | .TemplateValidity v => .map [(.key 7, .bool v)]
  | .SubmitTemplate b => .map [(.key 8, encode_block b)]
  | .DiscoverNodes => .key 9
  | .NodeList ns => .map [(.key 10, .array (ns.map CborValue.nat))]
  | .AskDifference h => .map [(.key 11, .nat h)]
  | .Difference d => .map [(.key 12, .int d)]
  | .FetchBlock i => .map [(.key 13, .nat i)]
  | .NewBlock b => .map [(.key 14, encode_block b)]

/-- Serde decoding of a boolean leaf. -/
def decode_bool : CborValue → Option Bool
  | .bool b => some b
  | _ => none

/-- Serde decoding of a signed integer leaf (the `i32` payload). -/
def decode_int_val : CborValue → Option Int
  | .int d => some d
  | _ => none

/-- Serde decoding of the `Vec<(TransactionOutput, bool)>` payload. -/
def decode_flag_list : CborValue → Option (List (TransactionOutput × Bool))
  | .array us => decode_list decode_output_flag us
  | _ => none

/-- Serde decoding of the `Vec<String>` payload (strings as modelled
scalars). -/
def decode_scalar_list : CborValue → Option (List Nat)
  | .array ns => decode_list decode_scalar ns
  | _ => none

/-- Serde decoding of `Message`. -/
def Message.decode : CborValue → Option Message
  | .map [(.key 0, v)] => (decode_scalar v).map Message.FetchUTXOs
  | .map [(.key 1, v)] => (decode_flag_list v).map Message.UTXOs
  | .map [(.key 2, v)] => (decode_transaction v).map Message.SubmitTransaction
  | .map [(.key 3, v)] => (decode_transaction v).map Message.NewTransaction
  | .map [(.key 4, v)] => (decode_scalar v).map Message.FetchTemplate
  | .map [(.key 5, v)] => (decode_block v).map Message.Template
  | .map [(.key 6, v)] => (decode_block v).map Message.ValidateTemplate
  | .map [(.key 7, v)] => (decode_bool v).map Message.TemplateValidity
  | .map [(.key 8, v)] => (decode_block v).map Message.SubmitTemplate
  | .key 9 => some .DiscoverNodes
  | .map [(.key 10, v)] => (decode_scalar_list v).map Message.NodeList
  | .map [(.key 11, v)] => (decode_scalar v).map Message.AskDifference
  | .map [(.key 12, v)] => (decode_int_val v).map Message.Difference
  | .map [(.key 13, v)] => (decode_scalar v).map Message.FetchBlock
  | .map [(.key 14, v)] => (decode_block v).map Message.NewBlock
  | _ => none

/-- Constant `Message::MAX_MESSAGE_SIZE` (`network/message.rs`): 10 MiB. -/
def MAX_MESSAGE_SIZE : Nat := 10 * 1024 * 1024

/-- Value of the 8-byte big-endian length prefix
(`u64::from_be_bytes(len_bytes)`). -/
def be_u64 (bytes : List Nat) : Nat :=
  bytes.foldl (fun acc b => acc * 256 + b) 0

/-- Error channel of `Message::receive`/`receive_async`:
`SizeLimitExceeded` models the `IoErrorKind::InvalidData` error built when the
decoded length exceeds `MAX_MESSAGE_SIZE`; `UnexpectedEof` the `read_exact`
failures; `DecodeFailed` a `ciborium` payload decoding failure. -/
inductive RecvError where
  | UnexpectedEof
  | SizeLimitExceeded
  | DecodeFailed
  deriving DecidableEq, Repr

/-- Function `Message::receive` (`network/message.rs`): read an 8-byte
big-endian length prefix, reject lengths above `MAX_MESSAGE_SIZE` *before*
allocating or reading the payload, then read `len` payload bytes and decode
them.  The stream is the list of bytes the peer will deliver and `dec` is the
byte-level `ciborium` message decoder (opaque here). -/
def Message.receive (dec : List Nat → Option Message) (stream : List Nat) :
    Except RecvError Message :=
  if stream.length < 8 then .error .UnexpectedEof
  else
    let len := be_u64 (stream.take 8)
    if len > MAX_MESSAGE_SIZE then .error .SizeLimitExceeded
    else
      let rest := stream.drop 8
      if rest.length < len then .error .UnexpectedEof
      else
        match dec (rest.take len) with
        | some m => .ok m
        | none => .error .DecodeFailed

/-- Function `Message::receive_async` (`network/message.rs`): same logic as
`Message::receive` over the async reader. -/
def Message.receive_async (dec : List Nat → Option Message) (stream : List Nat) :
    Except RecvError Message :=
  if stream.length < 8 then .error .UnexpectedEof
  else
    let len := be_u64 (stream.take 8)
    if len > MAX_MESSAGE_SIZE then .error .SizeLimitExceeded
    else
      let rest := stream.drop 8
      if rest.length < len then .error .UnexpectedEof
      else
        match dec (rest.take len) with
        | some m => .ok m
        | none => .error .DecodeFailed

/-- Trivial stand-in for the byte-level message decoder, used to instantiate
oracle parameters in concrete evaluations. -/
def dec_none : List Nat → Option Message := fun _ => none

/-- Oracle instance mapping every hashable value to `1` and accepting every
signature, used for concrete evaluations. -/
def hm_one : HashModel :=
  { hashHeader := fun _ => 1, hashTx := fun _ => 1, hashOutput := fun _ => 1,
    hashPair := fun _ _ => 1, sigVerify := fun _ _ _ => true }

/-- Coinbase-only block paying `25 * 10 ^ 8`, the reward after the first
halving. -/
def c5_block : Block :=
  { header := default, transactions := [{ inputs := [], outputs := [⟨2500000000, 0, 0⟩] }] }

/-- Genesis-shaped block (zero `prev_block_hash`) used for concrete
evaluations. -/
def c4_genesis_block : Block :=
  { header := { timestamp := 0, nonce := 0, prev_block_hash := 0, merkle_root := 0, target := 0 },
    transactions := [] }

/-- One-block chain used for concrete evaluations. -/
def c4_chain : Blockchain :=
  { utxos := [], target := MIN_TARGET, blocks := [c4_genesis_block], mempool := [] }

/-- Non-genesis block whose `prev_block_hash` does not match the tip under
`hm_one`. -/
def c4_next_block : Block :=
  { header := { timestamp := 1, nonce := 0, prev_block_hash := 5, merkle_root := 0, target := 0 },
    transactions := [{ inputs := [], outputs := [⟨0, 0, 0⟩] }] }

/-- Key-and-output view of the UTXO index, forgetting the reservation flags. -/
def utxos_shape (u : Utxos) : List (Hash × TransactionOutput) :=
  u.map (fun e => (e.1, e.2.2))

/-- Sum of the values of the UTXOs referenced by `inputs` (each resolved in
`utxos`; an unresolved reference contributes `0`, a case excluded wherever
this definition appears in a hypothesis). -/
def resolved_sum (utxos : Utxos) (inputs : List TransactionInput) : Nat :=
  (inputs.map (fun inp =>
    ((Utxos.lookup utxos inp.prev_transaction_output_hash).map (fun p => p.2.value)).getD 0)).sum

/-- Coinbase-only block paying the full height-1 block reward, on which C1 as
stated fails. -/
def c1_block : Block :=
  { header := default, transactions := [{ inputs := [], outputs := [⟨5000000000, 0, 0⟩] }] }

/-- Coinbase-only block with a zero-valued coinbase output, the only shape on
which `verify_transactions` can still succeed. -/
def c1_zero_block : Block :=
  { header := default, transactions := [{ inputs := [], outputs := [⟨0, 0, 0⟩] }] }

/-- Reserved UTXO (value 50) spent by both mempool transaction A and the
incoming transaction B in the C2 scenario; its key in the index is `100`. -/
def c2_utxo_output : TransactionOutput := ⟨50, 0, 7⟩

/-- Mempool transaction A: spends the reserved UTXO `100`, one output of
value 7. -/
def c2_tx_a : Transaction := ⟨[⟨100, 11⟩], [⟨7, 1, 8⟩]⟩

/-- Incoming transaction B: also spends UTXO `100`, one output of value 10. -/
def c2_tx_b : Transaction := ⟨[⟨100, 12⟩], [⟨10, 2, 9⟩]⟩

/-- State of the C2 scenario: UTXO `100` is reserved and A sits in the
mempool. -/
def c2_chain : Blockchain :=
  { utxos := [(100, true, c2_utxo_output)], target := MIN_TARGET, blocks := [],
    mempool := [(0, c2_tx_a)] }

/-- States reachable from the empty chain (`Blockchain::default()`) by a
sequence of successful `add_block` calls. -/
inductive Reachable (hm : HashModel) : Blockchain → Prop where
  | init : Reachable hm Blockchain.default_chain
  | step (bc : Blockchain) (b : Block) :
      Reachable hm bc → (Blockchain.add_block hm bc b).1 = .ok () →
      Reachable hm (Blockchain.add_block hm bc b).2

/-- Genesis block with difficulty target `0`, which no positive header hash
can match. -/
def c3_genesis : Block :=
  { header := { timestamp := 0, nonce := 0, prev_block_hash := 0, merkle_root := 0, target := 0 },
    transactions := [] }

/-- Oracle instance mapping every hashable value to `0` and accepting every
signature; under it a zero-target chain can make progress, which is needed to
exercise the acceptance path at a height where the block reward is zero. -/
def hm_zero : HashModel :=
  { hashHeader := fun _ => 0, hashTx := fun _ => 0, hashOutput := fun _ => 0,
    hashPair := fun _ _ => 0, sigVerify := fun _ _ _ => true }

/-- Tip block of the C3 witness chain. -/
def c3_last_block : Block :=
  { header := { timestamp := 0, nonce := 0, prev_block_hash := 0, merkle_root := 0, target := 0 },
    transactions := [] }

/-- Chain of 6 930 000 blocks (33 halvings, so the block reward is zero and a
zero-valued coinbase satisfies `verify_transactions`). -/
def c3_chain : Blockchain :=
  { utxos := [], target := 0, blocks := List.replicate 6930000 c3_last_block, mempool := [] }

/-- Block accepted onto the non-empty C3 witness chain: zero-valued coinbase,
linkage, Merkle root, proof of work and timestamp all valid under
`hm_zero`. -/
def c3_next_block : Block :=
  { header := { timestamp := 1, nonce := 0, prev_block_hash := 0, merkle_root := 0, target := 0 },
    transactions := [{ inputs := [], outputs := [⟨0, 3, 4⟩] }] }

/-- Clamp of the retarget computation as the claim words it:
`target/4 ≤ x ≤ target*4`, with out-of-range values snapped to the bound. -/
def clamp_val (t x : Nat) : Nat :=
  if x < t / 4 then t / 4 else if x > t * 4 then t * 4 else x

/-- First block of the C6 witness chain (timestamp 0). -/
def c6_first_block : Block :=
  { header := { timestamp := 0, nonce := 0, prev_block_hash := 0, merkle_root := 0, target := 0 },
    transactions := [] }

/-- Tip of the C6 witness chain: timestamp 604 800 s (in nanoseconds), half of
the ideal 2016-block window time. -/
def c6_tip_block : Block :=
  { header :=
      { timestamp := 604800000000000, nonce := 0, prev_block_hash := 0, merkle_root := 0,
        target := 0 },
    transactions := [] }

/-- Chain of exactly `DIFFICULTY_UPDATE_INTERVAL` blocks whose window spans
half of `T_ideal`, at the easiest difficulty. -/
def c6_chain : Blockchain :=
  { utxos := [], target := MIN_TARGET,
    blocks := c6_first_block :: (List.replicate 2014 c6_first_block ++ [c6_tip_block]),
    mempool := [] }

/-- First block of the C6 counterexample chain (timestamp 0). -/
def c6x_first_block : Block :=
  { header := { timestamp := 0, nonce := 0, prev_block_hash := 0, merkle_root := 0, target := 0 },
    transactions := [] }

/-- Tip of the C6 counterexample chain: timestamp 432 000 s (in nanoseconds),
so the window-to-ideal ratio is 432000/1209600 = 5/14, a non-terminating
decimal. -/
def c6x_tip_block : Block :=
  { header :=
      { timestamp := 432000000000000, nonce := 0, prev_block_hash := 0, merkle_root := 0,
        target := 0 },
    transactions := [] }

/-- Chain of exactly `DIFFICULTY_UPDATE_INTERVAL` blocks at target 1 209 600
whose window spans 432 000 s: `target * dt` is an exact multiple of
`T_ideal`, but the 100-digit quotient falls short of 5/14 and the first
dropped digit (4) rounds down, so the code lands one below the exact
floor. -/
def c6x_chain : Blockchain :=
  { utxos := [], target := 1209600,
    blocks := c6x_first_block :: (List.replicate 2014 c6x_first_block ++ [c6x_tip_block]),
    mempool := [] }

/-- Blockchain with one mempool entry, on which C7 as stated fails. -/
def c7_chain : Blockchain :=
  { utxos := [], target := 0, blocks := [], mempool := [(0, ⟨[], []⟩)] }

theorem decode_list_map (dec : CborValue → Option α) (enc : α → CborValue)
    (h : ∀ x, dec (enc x) = some x) (l : List α) :
    decode_list dec (l.map enc) = some l := by
  induction l with
  | nil => rfl
  | cons x xs ih => simp [decode_list, h, ih]

theorem take_append_of_len_eq {α : Type} (l r : List α) (h : l.length = 8) :
    (l ++ r).take 8 = l := by
  rw [← h]
  exact List.take_left l r

theorem drop_append_of_len_eq {α : Type} (l r : List α) (h : l.length = 8) :
    (l ++ r).drop 8 = r := by
  rw [← h]
  exact List.drop_left l r

/-- C8: `Message::receive` and `Message::receive_async` fail with the
`InvalidData` size error whenever the decoded 8-byte big-endian length prefix
exceeds 10 MiB, and do so for every possible continuation of the stream (so
before any payload byte is read or any payload buffer is allocated); a length
of at most 10 MiB is never rejected by this size check. -/
theorem c8_receive_size_limit (dec : List Nat → Option Message)
    (len_bytes payload : List Nat) (hlen : len_bytes.length = 8) :
    (be_u64 len_bytes > MAX_MESSAGE_SIZE →
      Message.receive dec (len_bytes ++ payload) = .error .SizeLimitExceeded ∧
      Message.receive_async dec (len_bytes ++ payload) = .error .SizeLimitExceeded) ∧
    (be_u64 len_bytes ≤ MAX_MESSAGE_SIZE →
      Message.receive dec (len_bytes ++ payload) ≠ .error .SizeLimitExceeded ∧
      Message.receive_async dec (len_bytes ++ payload) ≠ .error .SizeLimitExceeded) := by
  have hlength : (len_bytes ++ payload).length = 8 + payload.length := by
    simp [hlen]
  have htake := take_append_of_len_eq len_bytes payload hlen
  have hdrop := drop_append_of_len_eq len_bytes payload hlen
  constructor
  · intro hgt
    constructor
    · simp only [Message.receive, hlength, htake]
      rw [if_neg (by omega), if_pos hgt]
    · simp only [Message.receive_async, hlength, htake]
      rw [if_neg (by omega), if_pos hgt]
  · intro hle
    constructor
    · simp only [Message.receive, hlength, htake, hdrop]
      rw [if_neg (by omega), if_neg (by omega)]
      split
      · simp
      · split <;> simp
    · simp only [Message.receive_async, hlength, htake, hdrop]
      rw [if_neg (by omega), if_neg (by omega)]
      split
      · simp
      · split <;> simp

theorem c8_receive_size_limit_witness :
    ([0, 0, 0, 0, 0, 160, 0, 1] : List Nat).length = 8 ∧
    be_u64 [0, 0, 0, 0, 0, 160, 0, 1] > MAX_MESSAGE_SIZE ∧
    Message.receive dec_none ([0, 0, 0, 0, 0, 160, 0, 1] ++ []) = .error .SizeLimitExceeded ∧
    ([0, 0, 0, 0, 0, 160, 0, 0] : List Nat).length = 8 ∧
    be_u64 [0, 0, 0, 0, 0, 160, 0, 0] ≤ MAX_MESSAGE_SIZE ∧
    Message.receive dec_none ([0, 0, 0, 0, 0, 160, 0, 0] ++ []) ≠ .error .SizeLimitExceeded :=
  ⟨by decide, by decide,
    ((c8_receive_size_limit dec_none [0, 0, 0, 0, 0, 160, 0, 1] [] (by decide)).1 (by decide)).1,
    by decide, by decide,
    ((c8_receive_size_limit dec_none [0, 0, 0, 0, 0, 160, 0, 0] [] (by decide)).2 (by decide)).1⟩

/-- C5: given that the miner-fee computation over the non-coinbase
transactions succeeds with value `miner_fees` (and the block is non-empty, and
the halving exponent stays below 64 so that the Rust `2u64.pow` does not
panic), `verify_coinbase_transaction` succeeds iff the first transaction has
empty inputs, non-empty outputs, and output sum
`block_reward(predicted_height) + miner_fees`; moreover
`block_reward h = (INITIAL_REWARD * 10 ^ 8) >>> (h / HALVING_INTERVAL)`, with
the concrete values `25 * 10 ^ 8` at height 210000 and `12.5 * 10 ^ 8 =
1250000000` at height 420000. -/
theorem c5_verify_coinbase (hm : HashModel) (b : Block) (h : Nat) (utxos : Utxos)
    (miner_fees : Nat) (cb : Transaction) (rest : List Transaction)
    (htxs : b.transactions = cb :: rest)
    (hfees : Block.calculated_miner_fees hm b utxos = .ok miner_fees)
    (_hbound : h / HALVING_INTERVAL < 64) :
    (Block.verify_coinbase_transaction hm b h utxos = .ok () ↔
      (cb.inputs = [] ∧ cb.outputs ≠ [] ∧
        sum_values cb.outputs = block_reward h + miner_fees)) ∧
    block_reward h = (INITIAL_REWARD * 10 ^ 8) >>> (h / HALVING_INTERVAL) ∧
    block_reward 210000 = 25 * 10 ^ 8 ∧
    block_reward 420000 = 1250000000 := by
  refine ⟨?_, ?_, by decide, by decide⟩
  · rw [Block.verify_coinbase_transaction, htxs]
    simp only [hfees]
    by_cases hin : cb.inputs = [] <;> by_cases hout : cb.outputs = [] <;>
      by_cases hsum : sum_values cb.outputs = block_reward h + miner_fees <;>
      simp [hin, hout, hsum]
  · rw [block_reward, Nat.shiftRight_eq_div_pow]

theorem c5_verify_coinbase_witness :
    c5_block.transactions = ⟨[], [⟨2500000000, 0, 0⟩]⟩ :: [] ∧
    Block.calculated_miner_fees hm_one c5_block [] = .ok 0 ∧
    210000 / HALVING_INTERVAL < 64 ∧
    (Block.verify_coinbase_transaction hm_one c5_block 210000 [] = .ok () ↔
      (Transaction.mk [] [⟨2500000000, 0, 0⟩]).inputs = [] ∧
      (Transaction.mk [] [⟨2500000000, 0, 0⟩]).outputs ≠ [] ∧
      sum_values (Transaction.mk [] [⟨2500000000, 0, 0⟩]).outputs = block_reward 210000 + 0) :=
  ⟨rfl, rfl, by decide,
    (c5_verify_coinbase hm_one c5_block 210000 [] 0 ⟨[], [⟨2500000000, 0, 0⟩]⟩ []
      rfl rfl (by decide)).1⟩

/-- C4: on an empty chain `add_block` succeeds iff the block's
`prev_block_hash` is the zero hash (no proof-of-work, Merkle, timestamp or
transaction checks run); on a non-empty chain it returns, in order,
`InvalidBlock` on a linkage mismatch, `InvalidBlock` on a failed
proof-of-work check, `InvalidMerkleRoot` on a Merkle-root mismatch,
`InvalidBlockHeader` on a timestamp not strictly larger than the last
block's (equality rejected), and otherwise exactly the result of
`verify_transactions(block, blocks.len(), utxos)`.  The non-empty-chain part
assumes a non-empty transaction list because `MerkleRoot::calculate` panics
on an empty one before any comparison happens. -/
theorem c4_add_block_error_order (hm : HashModel) (bc : Blockchain) (b : Block) :
    (bc.blocks = [] →
      (Blockchain.add_block hm bc b).1 =
        (if b.header.prev_block_hash = 0 then .ok () else .error .InvalidBlock)) ∧
    (∀ last_block, bc.blocks.getLast? = some last_block → b.transactions ≠ [] →
      (Blockchain.add_block hm bc b).1 =
        (if b.header.prev_block_hash ≠ hm.hashHeader last_block.header then
          .error .InvalidBlock
        else if ¬ Hash.matches_target (hm.hashHeader b.header) b.header.target then
          .error .InvalidBlock
        else if MerkleRoot.calculate hm b.transactions ≠ b.header.merkle_root then
          .error .InvalidMerkleRoot
        else if b.header.timestamp ≤ last_block.header.timestamp then
          .error .InvalidBlockHeader
        else Block.verify_transactions hm b bc.blocks.length bc.utxos)) := by
  constructor
  · intro hempty
    rw [Blockchain.add_block]
    rw [hempty]
    simp only [List.getLast?_nil]
    by_cases hz : b.header.prev_block_hash = 0
    · simp [hz, Blockchain.accept_block]
    · simp [hz]
  · intro last_block hlast _htx
    rw [Blockchain.add_block, hlast]
    simp only
    split
    · rfl
    · split
      · rfl
      · split
        · rfl
        · split
          · rfl
          · cases hv : Block.verify_transactions hm b bc.blocks.length bc.utxos with
            | error e => simp
            | ok u => simp [Blockchain.accept_block]

theorem c4_add_block_error_order_witness :
    (Blockchain.default_chain.blocks = [] ∧
      (Blockchain.add_block hm_one Blockchain.default_chain c4_genesis_block).1 =
        (if c4_genesis_block.header.prev_block_hash = 0 then .ok () else .error .InvalidBlock)) ∧
    (c4_chain.blocks.getLast? = some c4_genesis_block ∧
      c4_next_block.transactions ≠ [] ∧
      (Blockchain.add_block hm_one c4_chain c4_next_block).1 =
        (if c4_next_block.header.prev_block_hash ≠ hm_one.hashHeader c4_genesis_block.header then
          .error .InvalidBlock
        else if ¬ Hash.matches_target (hm_one.hashHeader c4_next_block.header)
            c4_next_block.header.target then
          .error .InvalidBlock
        else if MerkleRoot.calculate hm_one c4_next_block.transactions ≠
            c4_next_block.header.merkle_root then
          .error .InvalidMerkleRoot
        else if c4_next_block.header.timestamp ≤ c4_genesis_block.header.timestamp then
          .error .InvalidBlockHeader
        else Block.verify_transactions hm_one c4_next_block c4_chain.blocks.length
          c4_chain.utxos)) :=
  ⟨⟨rfl, (c4_add_block_error_order hm_one Blockchain.default_chain c4_genesis_block).1 rfl⟩,
   ⟨rfl, by decide,
    (c4_add_block_error_order hm_one c4_chain c4_next_block).2 c4_genesis_block rfl (by decide)⟩⟩

/-- C10: `add_block` is atomic on failure: whenever it returns an error, the
entire `Blockchain` value (blocks, utxos, target and mempool alike) is exactly
what it was before the call — every validation check runs before the first
mutation. -/
theorem add_block_eq_none (hm : HashModel) (bc : Blockchain) (b : Block)
    (hl : bc.blocks.getLast? = none) :
    Blockchain.add_block hm bc b =
      if b.header.prev_block_hash ≠ 0 then (.error .InvalidBlock, bc)
      else Blockchain.accept_block hm bc b := by
  rw [Blockchain.add_block, hl]

theorem add_block_eq_some (hm : HashModel) (bc : Blockchain) (b : Block)
    (last_block : Block) (hl : bc.blocks.getLast? = some last_block) :
    Blockchain.add_block hm bc b =
      (if b.header.prev_block_hash ≠ hm.hashHeader last_block.header then
        (.error .InvalidBlock, bc)
      else if ¬ Hash.matches_target (hm.hashHeader b.header) b.header.target then
        (.error .InvalidBlock, bc)
      else if MerkleRoot.calculate hm b.transactions ≠ b.header.merkle_root then
        (.error .InvalidMerkleRoot, bc)
      else if b.header.timestamp ≤ last_block.header.timestamp then
        (.error .InvalidBlockHeader, bc)
      else
        match Block.verify_transactions hm b bc.blocks.length bc.utxos with
        | .error e => (.error e, bc)
        | .ok _ => Blockchain.accept_block hm bc b) := by
  rw [Blockchain.add_block, hl]

theorem add_block_ok_or_frame (hm : HashModel) (bc : Blockchain) (b : Block) :
    (Blockchain.add_block hm bc b).1 = .ok () ∨ (Blockchain.add_block hm bc b).2 = bc := by
  cases hl : bc.blocks.getLast? with
  | none =>
    rw [add_block_eq_none hm bc b hl]
    split
    · right; rfl
    · left; rfl
  | some last_block =>
    rw [add_block_eq_some hm bc b last_block hl]
    split
    · right; rfl
    · split
      · right; rfl
      · split
        · right; rfl
        · split
          · right; rfl
          · split
            · right; rfl
            · left; rfl

theorem c10_add_block_atomic (hm : HashModel) (bc : Blockchain) (b : Block)
    (e : BtcError) (h : (Blockchain.add_block hm bc b).1 = .error e) :
    (Blockchain.add_block hm bc b).2 = bc := by
  rcases add_block_ok_or_frame hm bc b with hok | hframe
  · rw [hok] at h
    exact absurd h (by simp)
  · exact hframe

theorem c10_add_block_atomic_witness :
    (Blockchain.add_block hm_one Blockchain.default_chain c4_next_block).1 =
      .error .InvalidBlock ∧
    (Blockchain.add_block hm_one Blockchain.default_chain c4_next_block).2 =
      Blockchain.default_chain :=
  ⟨rfl, c10_add_block_atomic hm_one Blockchain.default_chain c4_next_block .InvalidBlock rfl⟩

theorem try_adjust_target_utxos (bc : Blockchain) :
    (Blockchain.try_adjust_target bc).utxos = bc.utxos := by
  rw [Blockchain.try_adjust_target]
  split
  · rfl
  split
  · rfl
  · rfl

theorem try_adjust_target_blocks (bc : Blockchain) :
    (Blockchain.try_adjust_target bc).blocks = bc.blocks := by
  rw [Blockchain.try_adjust_target]
  split
  · rfl
  split
  · rfl
  · rfl

theorem try_adjust_target_mempool (bc : Blockchain) :
    (Blockchain.try_adjust_target bc).mempool = bc.mempool := by
  rw [Blockchain.try_adjust_target]
  split
  · rfl
  split
  · rfl
  · rfl

theorem shape_set_unreserved (u : Utxos) (h : Hash) :
    utxos_shape (Utxos.set_unreserved u h) = utxos_shape u := by
  induction u with
  | nil => rfl
  | cons e rest ih =>
    simp only [Utxos.set_unreserved, List.map_cons, utxos_shape] at ih ⊢
    rw [show (List.map (fun e => if e.1 = h then (e.1, false, e.2.2) else e) rest) =
      Utxos.set_unreserved rest h from rfl] at *
    rw [ih]
    split <;> rfl

theorem shape_clear_reservations (u : Utxos) (tx : Transaction) :
    utxos_shape (Blockchain.clear_reservations u tx) = utxos_shape u := by
  rw [Blockchain.clear_reservations]
  induction tx.inputs generalizing u with
  | nil => rfl
  | cons i rest ih =>
    simp only [List.foldl_cons]
    rw [ih, shape_set_unreserved]

theorem shape_displace (hm : HashModel) (inputs : List TransactionInput)
    (u : Utxos) (mp : List (Int × Transaction)) :
    utxos_shape (Blockchain.displace hm inputs u mp).1 = utxos_shape u := by
  induction inputs generalizing u mp with
  | nil => rfl
  | cons inp rest ih =>
    rw [Blockchain.displace]
    cases hl : Utxos.lookup u inp.prev_transaction_output_hash with
    | none => exact ih u mp
    | some p =>
      obtain ⟨flag, out⟩ := p
      cases flag with
      | false => exact ih u mp
      | true =>
        cases hf : find_producer hm inp.prev_transaction_output_hash mp with
        | none =>
          rw [ih, shape_set_unreserved]
        | some found =>
          obtain ⟨pre, f, post⟩ := found
          rw [ih, shape_clear_reservations]

theorem shape_foldl_clear (l : List (Int × Transaction)) (u : Utxos) :
    utxos_shape (l.foldl (fun u e => Blockchain.clear_reservations u e.2) u) = utxos_shape u := by
  induction l generalizing u with
  | nil => rfl
  | cons e rest ih =>
    simp only [List.foldl_cons]
    rw [ih, shape_clear_reservations]

/-- C9: `add_block` never touches the UTXO index at all, whether it succeeds
or fails; the only UTXO mutations performed by the mempool operations
(`add_transaction_to_mempool`, `cleanup_mempool`) are reservation-flag
updates, which preserve every key and every stored output. -/
theorem c9_add_block_utxo_frame :
    (∀ (hm : HashModel) (bc : Blockchain) (b : Block),
      ((Blockchain.add_block hm bc b).2).utxos = bc.utxos) ∧
    (∀ (hm : HashModel) (now : Int) (bc : Blockchain) (tx : Transaction),
      utxos_shape ((Blockchain.add_transaction_to_mempool hm now bc tx).2).utxos =
        utxos_shape bc.utxos) ∧
    (∀ (now : Int) (bc : Blockchain),
      utxos_shape ((Blockchain.cleanup_mempool now bc).utxos) = utxos_shape bc.utxos) := by
  refine ⟨?_, ?_, ?_⟩
  · intro hm bc b
    cases hl : bc.blocks.getLast? with
    | none =>
      rw [add_block_eq_none hm bc b hl]
      split
      · rfl
      · exact try_adjust_target_utxos _
    | some last_block =>
      rw [add_block_eq_some hm bc b last_block hl]
      split
      · rfl
      split
      · rfl
      split
      · rfl
      split
      · rfl
      split
      · rfl
      · exact try_adjust_target_utxos _
  · intro hm now bc tx
    rw [Blockchain.add_transaction_to_mempool]
    cases hc : Blockchain.check_inputs bc.utxos tx.inputs [] with
    | error e => rfl
    | ok u =>
      simp only
      split
      · exact shape_displace hm tx.inputs bc.utxos bc.mempool
      · exact shape_displace hm tx.inputs bc.utxos bc.mempool
  · intro now bc
    rw [Blockchain.cleanup_mempool]
    exact shape_foldl_clear _ _

theorem verify_coinbase_ok_inputs_empty (hm : HashModel) (b : Block) (h : Nat)
    (utxos : Utxos) (cb : Transaction) (rest : List Transaction)
    (hcons : b.transactions = cb :: rest)
    (hcb : Block.verify_coinbase_transaction hm b h utxos = .ok ()) :
    cb.inputs = [] := by
  by_cases hin : cb.inputs = []
  · exact hin
  · rw [Block.verify_coinbase_transaction, hcons] at hcb
    simp [hin] at hcb

theorem verify_inputs_ok (hm : HashModel) (utxos : Utxos)
    (inputs : List TransactionInput) (seen : List (Hash × TransactionOutput)) (acc : Nat)
    (hres : ∀ inp ∈ inputs, (Utxos.lookup utxos inp.prev_transaction_output_hash).isSome = true)
    (hsig : ∀ inp ∈ inputs, ∀ flag out,
      Utxos.lookup utxos inp.prev_transaction_output_hash = some (flag, out) →
      hm.sigVerify inp.signature inp.prev_transaction_output_hash out.pubkey = true)
    (hnew : ∀ inp ∈ inputs, assoc_contains seen inp.prev_transaction_output_hash = false)
    (hnodup : (inputs.map TransactionInput.prev_transaction_output_hash).Nodup) :
    ∃ seen', Block.verify_inputs hm utxos inputs seen acc =
        .ok (acc + resolved_sum utxos inputs, seen') ∧
      ∀ k, assoc_contains seen' k =
        (assoc_contains seen k ||
          (inputs.map TransactionInput.prev_transaction_output_hash).contains k) := by
  induction inputs generalizing seen acc with
  | nil =>
    refine ⟨seen, ?_, ?_⟩
    · simp [Block.verify_inputs, resolved_sum]
    · intro k
      simp
  | cons inp rest ih =>
    have hs : (Utxos.lookup utxos inp.prev_transaction_output_hash).isSome = true :=
      hres inp (by simp)
    cases hl : Utxos.lookup utxos inp.prev_transaction_output_hash with
    | none => rw [hl] at hs; cases hs
    | some p =>
      obtain ⟨flag, out⟩ := p
      have h1 := hnew inp (by simp)
      have h2 := hsig inp (by simp) flag out hl
      have hnodup' : (rest.map TransactionInput.prev_transaction_output_hash).Nodup := by
        rw [List.map_cons, List.nodup_cons] at hnodup
        exact hnodup.2
      have hmem : inp.prev_transaction_output_hash ∉
          rest.map TransactionInput.prev_transaction_output_hash := by
        rw [List.map_cons, List.nodup_cons] at hnodup
        exact hnodup.1
      obtain ⟨seen', heq, hkeys⟩ := ih
        ((inp.prev_transaction_output_hash, out) :: seen)
        (acc + out.value)
        (fun i hi => hres i (by simp [hi]))
        (fun i hi flag2 out2 hl2 => hsig i (by simp [hi]) flag2 out2 hl2)
        (fun i hi => by
          simp only [assoc_contains]
          rw [if_neg, hnew i (by simp [hi])]
          intro hkeq
          exact hmem (hkeq ▸ List.mem_map_of_mem TransactionInput.prev_transaction_output_hash hi))
        hnodup'
      have harith : acc + out.value + resolved_sum utxos rest =
          acc + resolved_sum utxos (inp :: rest) := by
        simp [resolved_sum, hl]
        omega
      refine ⟨seen', ?_, ?_⟩
      · rw [Block.verify_inputs, hl]
        simp [h1, h2, heq, harith]
      · intro k
        rw [hkeys k]
        simp only [assoc_contains, List.map_cons, List.contains_cons]
        by_cases hk : inp.prev_transaction_output_hash = k
        · simp [hk]
        · rw [if_neg hk]
          have hkf : (k == inp.prev_transaction_output_hash) = false :=
            beq_eq_false_iff_ne.mpr (fun hkk => hk hkk.symm)
          simp [hkf]

theorem verify_tx_loop_ok (hm : HashModel) (utxos : Utxos) (txs : List Transaction)
    (seen : List (Hash × TransactionOutput))
    (hres : ∀ tx ∈ txs, ∀ inp ∈ tx.inputs,
      (Utxos.lookup utxos inp.prev_transaction_output_hash).isSome = true)
    (hsig : ∀ tx ∈ txs, ∀ inp ∈ tx.inputs, ∀ flag out,
      Utxos.lookup utxos inp.prev_transaction_output_hash = some (flag, out) →
      hm.sigVerify inp.signature inp.prev_transaction_output_hash out.pubkey = true)
    (hval : ∀ tx ∈ txs, sum_values tx.outputs ≤ resolved_sum utxos tx.inputs)
    (hnew : ∀ tx ∈ txs, ∀ inp ∈ tx.inputs,
      assoc_contains seen inp.prev_transaction_output_hash = false)
    (hnodup : (txs.flatMap
      (fun tx => tx.inputs.map TransactionInput.prev_transaction_output_hash)).Nodup) :
    Block.verify_tx_loop hm utxos txs seen = .ok () := by
  induction txs generalizing seen with
  | nil => rfl
  | cons tx rest ih =>
    rw [List.flatMap_cons, List.nodup_append] at hnodup
    obtain ⟨hnd1, hnd2, hdisj⟩ := hnodup
    obtain ⟨seen', heq, hkeys⟩ := verify_inputs_ok hm utxos tx.inputs seen 0
      (hres tx (by simp)) (hsig tx (by simp)) (hnew tx (by simp)) hnd1
    rw [Block.verify_tx_loop, heq]
    simp only
    rw [if_neg (by
      have := hval tx (by simp)
      omega)]
    exact ih seen'
      (fun t ht => hres t (by simp [ht]))
      (fun t ht => hsig t (by simp [ht]))
      (fun t ht => hval t (by simp [ht]))
      (fun t ht inp hinp => by
        have hnotmem : inp.prev_transaction_output_hash ∉
            tx.inputs.map TransactionInput.prev_transaction_output_hash := fun hmem2 =>
          hdisj hmem2 (List.mem_flatMap.mpr
            ⟨t, ht, List.mem_map_of_mem TransactionInput.prev_transaction_output_hash hinp⟩)
        rw [hkeys]
        simp [hnew t (by simp [ht]) inp hinp, hnotmem])
      hnd2

/-- C1 (amended): under the claim's hypotheses — the coinbase check passes,
every non-coinbase input resolves in `utxos`, no UTXO hash is referenced twice
anywhere in the block, every signature verifies against the referenced
output's pubkey, and every non-coinbase transaction's resolved input sum
covers its output sum — `verify_transactions` succeeds *iff the coinbase's
own output sum is zero*, and otherwise returns `InvalidTransaction`: the
value-conservation check `input_value < output_value` also runs on the
coinbase (whose input sum is 0), so any positive block reward plus fees makes
the function reject the block. -/
theorem c1_verify_transactions_amended (hm : HashModel) (b : Block) (h : Nat)
    (utxos : Utxos) (cb : Transaction) (rest : List Transaction)
    (hcons : b.transactions = cb :: rest)
    (hcb : Block.verify_coinbase_transaction hm b h utxos = .ok ())
    (hres : ∀ tx ∈ rest, ∀ inp ∈ tx.inputs,
      (Utxos.lookup utxos inp.prev_transaction_output_hash).isSome = true)
    (hsig : ∀ tx ∈ rest, ∀ inp ∈ tx.inputs, ∀ flag out,
      Utxos.lookup utxos inp.prev_transaction_output_hash = some (flag, out) →
      hm.sigVerify inp.signature inp.prev_transaction_output_hash out.pubkey = true)
    (hval : ∀ tx ∈ rest, sum_values tx.outputs ≤ resolved_sum utxos tx.inputs)
    (hnodup : (b.transactions.flatMap
      (fun tx => tx.inputs.map TransactionInput.prev_transaction_output_hash)).Nodup) :
    Block.verify_transactions hm b h utxos =
      (if sum_values cb.outputs = 0 then .ok () else .error .InvalidTransaction) := by
  have hin : cb.inputs = [] := verify_coinbase_ok_inputs_empty hm b h utxos cb rest hcons hcb
  rw [hcons, List.flatMap_cons, hin] at hnodup
  simp only [List.map_nil, List.nil_append] at hnodup
  rw [Block.verify_transactions, hcons, if_neg (by simp), hcb]
  simp only
  rw [Block.verify_tx_loop]
  rw [show Block.verify_inputs hm utxos cb.inputs [] 0 = .ok (0, []) from by
    rw [hin]; rfl]
  simp only
  by_cases hz : sum_values cb.outputs = 0
  · rw [if_neg (by omega), if_pos hz]
    exact verify_tx_loop_ok hm utxos rest [] hres hsig hval
      (by intro t ht inp hinp; rfl) hnodup
  · rw [if_pos (by omega), if_neg hz]

/-- C1 as stated is false at a concrete input: this non-empty block's coinbase
passes `verify_coinbase_transaction` (empty inputs, non-empty outputs, output
sum equal to `block_reward(1) + 0`), it has no non-coinbase transaction at all
(so every per-transaction hypothesis of the claim holds vacuously), and yet
`verify_transactions` returns `InvalidTransaction` instead of succeeding. -/
theorem c1_verify_transactions_cex :
    Block.verify_coinbase_transaction hm_one c1_block 1 [] = .ok () ∧
    c1_block.transactions = ⟨[], [⟨5000000000, 0, 0⟩]⟩ :: [] ∧
    Block.verify_transactions hm_one c1_block 1 [] = .error .InvalidTransaction :=
  ⟨rfl, rfl, rfl⟩

theorem c1_verify_transactions_amended_witness :
    c1_zero_block.transactions = ⟨[], [⟨0, 0, 0⟩]⟩ :: [] ∧
    Block.verify_coinbase_transaction hm_one c1_zero_block 6930000 [] = .ok () ∧
    (c1_zero_block.transactions.flatMap
      (fun tx => tx.inputs.map TransactionInput.prev_transaction_output_hash)).Nodup ∧
    Block.verify_transactions hm_one c1_zero_block 6930000 [] =
      (if sum_values (Transaction.mk [] [⟨0, 0, 0⟩]).outputs = 0 then .ok ()
       else .error .InvalidTransaction) :=
  ⟨rfl, rfl, by decide,
   c1_verify_transactions_amended hm_one c1_zero_block 6930000 [] ⟨[], [⟨0, 0, 0⟩]⟩ []
     rfl rfl (by simp) (by simp) (by simp) (by decide)⟩

/-- C2 evaluated at the failing input: B spends the reserved UTXO `100` that
mempool transaction A also spends (B's inputs all resolve, are distinct, and
its input sum 50 covers its output sum 10).  The claim requires the call to
leave the mempool holding *exactly B* with A evicted; the code instead
searches the mempool for a transaction whose *outputs* hash to `100` (the
producer of the UTXO, which is never in the mempool), finds none, merely
clears the reservation flag, and keeps A: the call succeeds with mempool
`[A, B]` (A first, by its higher fee 43 over B's 40) and UTXO `100`
unreserved. -/
theorem c2_mempool_eviction_bug :
    Blockchain.add_transaction_to_mempool hm_one 5 c2_chain c2_tx_b =
      (.ok (), { utxos := [(100, false, c2_utxo_output)], target := MIN_TARGET, blocks := [],
                 mempool := [(0, c2_tx_a), (5, c2_tx_b)] }) := by
  rfl

/-- C3 as stated is false at a concrete input: starting from the empty chain,
one successful `add_block` call (genesis, accepted with no proof-of-work
check) yields a reachable state containing a block whose header hash does not
match its target. -/
theorem c3_matches_target_cex :
    Reachable hm_one (Blockchain.add_block hm_one Blockchain.default_chain c3_genesis).2 ∧
    c3_genesis ∈ ((Blockchain.add_block hm_one Blockchain.default_chain c3_genesis).2).blocks ∧
    Hash.matches_target (hm_one.hashHeader c3_genesis.header) c3_genesis.header.target = false :=
  ⟨.step Blockchain.default_chain c3_genesis .init rfl, by decide, rfl⟩

/-- C3 (amended): every block accepted by `add_block` onto a *non-empty*
chain satisfies `hash().matches_target(target)` — the proof-of-work gate is
among the acceptance checks there.  The genesis block is exempt: it is
accepted without the proof-of-work check, as the counterexample exhibits, so
the reachable-states invariant holds for every block except the one at
index 0. -/
theorem c3_accepted_block_matches_target (hm : HashModel) (bc : Blockchain) (b : Block)
    (last_block : Block) (hl : bc.blocks.getLast? = some last_block)
    (hok : (Blockchain.add_block hm bc b).1 = .ok ()) :
    Hash.matches_target (hm.hashHeader b.header) b.header.target = true := by
  rw [add_block_eq_some hm bc b last_block hl] at hok
  by_cases h1 : b.header.prev_block_hash ≠ hm.hashHeader last_block.header
  · rw [if_pos h1] at hok
    exact absurd hok (by simp)
  · rw [if_neg h1] at hok
    by_cases h2 : Hash.matches_target (hm.hashHeader b.header) b.header.target = true
    · exact h2
    · rw [if_pos (by simpa using h2)] at hok
      exact absurd hok (by simp)

theorem c3_accepted_block_matches_target_witness :
    c3_chain.blocks.getLast? = some c3_last_block ∧
    (Blockchain.add_block hm_zero c3_chain c3_next_block).1 = .ok () ∧
    Hash.matches_target (hm_zero.hashHeader c3_next_block.header)
      c3_next_block.header.target = true := by
  have hgetlast : c3_chain.blocks.getLast? = some c3_last_block := by
    rw [show c3_chain.blocks = List.replicate 6930000 c3_last_block from rfl]
    rw [List.getLast?_replicate]
    rfl
  have hlen : c3_chain.blocks.length = 6930000 := by
    rw [show c3_chain.blocks = List.replicate 6930000 c3_last_block from rfl]
    exact List.length_replicate 6930000 c3_last_block
  have hok : (Blockchain.add_block hm_zero c3_chain c3_next_block).1 = .ok () := by
    rw [add_block_eq_some hm_zero c3_chain c3_next_block c3_last_block hgetlast]
    rw [if_neg (by decide), if_neg (by decide), if_neg (by decide), if_neg (by decide)]
    rw [hlen]
    rw [show Block.verify_transactions hm_zero c3_next_block 6930000 c3_chain.utxos =
      .ok () from rfl]
    rfl
  exact ⟨hgetlast, hok,
    c3_accepted_block_matches_target hm_zero c3_chain c3_next_block c3_last_block hgetlast hok⟩

theorem decimal_truncate_nonneg (q : ℚ) (hq : 0 ≤ q) :
    decimal_truncate q = ⌊q⌋ := by
  rw [decimal_truncate, Rat.floor_def]
  exact Int.tdiv_eq_ediv (Rat.num_nonneg.mpr hq) (by positivity)

theorem decimal_truncate_scale (t : Nat) (s : Int) (hs : 0 ≤ s) (c : Nat) (hc : 0 < c) :
    (decimal_truncate ((t : ℚ) * ((s : ℚ) / (c : ℚ)))).toNat = t * s.toNat / c := by
  have hq : (t : ℚ) * ((s : ℚ) / (c : ℚ)) = ((t * s.toNat : Nat) : ℚ) / (c : ℚ) := by
    rw [mul_div_assoc']
    congr 1
    push_cast
    rw [show ((s.toNat : Nat) : ℚ) = (s : ℚ) from by
      rw [← Int.cast_natCast, Int.toNat_of_nonneg hs]]
  rw [hq, decimal_truncate_nonneg _ (by positivity), Rat.floor_natCast_div_natCast]
  rw [← Int.natCast_div]
  exact Int.toNat_natCast _

theorem decimal_truncate_mantissa (t M sc : Nat) :
    (decimal_truncate ((t : ℚ) * ((M : ℚ) / ((10 : ℚ) ^ sc)))).toNat =
      t * M / 10 ^ sc := by
  have h := decimal_truncate_scale t (M : Int) (Int.natCast_nonneg M) (10 ^ sc)
    (pow_pos (by norm_num) sc)
  simp only [Int.cast_natCast, Nat.cast_pow, Nat.cast_ofNat, Int.toNat_natCast] at h
  exact h

theorem bigdec_div_of_nonneg (n : Int) (hn : 0 ≤ n) (d : Nat) :
    bigdec_div n d =
      ((bigdec_div_mantissa n.toNat d).1 : ℚ) /
        ((10 : ℚ) ^ (bigdec_div_mantissa n.toNat d).2) := by
  rw [bigdec_div, if_pos hn, bigdec_div_nat]

theorem try_adjust_target_fired (bc : Blockchain)
    (h0 : ¬ bc.blocks = [])
    (h1 : bc.blocks.length % DIFFICULTY_UPDATE_INTERVAL = 0)
    (hts : (bc.blocks.getD (bc.blocks.length - DIFFICULTY_UPDATE_INTERVAL)
        default).header.timestamp ≤
        (bc.blocks.getLast?.getD default).header.timestamp) :
    Blockchain.try_adjust_target bc =
      { bc with target :=
          (min
            (clamp_val bc.target
              (bc.target *
                (bigdec_div_mantissa
                  (((bc.blocks.getLast?.getD default).header.timestamp -
                    (bc.blocks.getD (bc.blocks.length - DIFFICULTY_UPDATE_INTERVAL)
                      default).header.timestamp).tdiv 1000000000).toNat
                  (IDEAL_BLOCK_TIME * DIFFICULTY_UPDATE_INTERVAL)).1 /
                10 ^ (bigdec_div_mantissa
                  (((bc.blocks.getLast?.getD default).header.timestamp -
                    (bc.blocks.getD (bc.blocks.length - DIFFICULTY_UPDATE_INTERVAL)
                      default).header.timestamp).tdiv 1000000000).toNat
                  (IDEAL_BLOCK_TIME * DIFFICULTY_UPDATE_INTERVAL)).2))
            MIN_TARGET) } := by
  rw [Blockchain.try_adjust_target, if_neg h0, if_neg (by omega)]
  have hdiff : (0 : Int) ≤
      ((bc.blocks.getLast?.getD default).header.timestamp -
        (bc.blocks.getD (bc.blocks.length - DIFFICULTY_UPDATE_INTERVAL)
          default).header.timestamp).tdiv 1000000000 :=
    Int.tdiv_nonneg (by omega) (by decide)
  have hbd := bigdec_div_of_nonneg _ hdiff (IDEAL_BLOCK_TIME * DIFFICULTY_UPDATE_INTERVAL)
  simp only [clamp_val]
  rw [hbd, decimal_truncate_mantissa]

/-- C6: `try_adjust_target` is a no-op unless `blocks.len()` is a positive
multiple of `DIFFICULTY_UPDATE_INTERVAL`; when it fires, the new target is
`min(clamp(trunc(target * q), target/4, target*4), MIN_TARGET)`, where `q`
is the quotient `dt / T_ideal` as `BigDecimal` division computes it at its
default precision — mantissa `M` over scale `10^sc` with 100 significant
digits, the last kept digit rounded up when the first dropped digit is at
least 5 (`bigdec_div_mantissa`) — `dt` is the whole-second difference between
the timestamp of the block `DIFFICULTY_UPDATE_INTERVAL` positions before the
end of the chain and the last block's timestamp, and `T_ideal =
IDEAL_BLOCK_TIME * DIFFICULTY_UPDATE_INTERVAL`.  The subsequent
multiplication by the target is exact and the truncation at the decimal point
is floor on these non-negative values, so the fired-case target is
`min(clamp(target * M / 10^sc), MIN_TARGET)` in Nat division.  The
hypotheses keep the embedding inside Rust's panic-free domain: `target * 4`
must not overflow `U256`, and the measured time difference must not be
negative (a negative difference panics in `U256::from_str_radix`). -/
theorem c6_try_adjust_target (bc : Blockchain)
    (_hbound : bc.target * 4 < 2 ^ 256)
    (hts : bc.blocks ≠ [] → bc.blocks.length % DIFFICULTY_UPDATE_INTERVAL = 0 →
      (bc.blocks.getD (bc.blocks.length - DIFFICULTY_UPDATE_INTERVAL)
        default).header.timestamp ≤
        (bc.blocks.getLast?.getD default).header.timestamp) :
    Blockchain.try_adjust_target bc =
      { bc with target :=
          if bc.blocks ≠ [] ∧ bc.blocks.length % DIFFICULTY_UPDATE_INTERVAL = 0 then
            (min
              (clamp_val bc.target
                (bc.target *
                  (bigdec_div_mantissa
                    (((bc.blocks.getLast?.getD default).header.timestamp -
                      (bc.blocks.getD (bc.blocks.length - DIFFICULTY_UPDATE_INTERVAL)
                        default).header.timestamp).tdiv 1000000000).toNat
                    (IDEAL_BLOCK_TIME * DIFFICULTY_UPDATE_INTERVAL)).1 /
                  10 ^ (bigdec_div_mantissa
                    (((bc.blocks.getLast?.getD default).header.timestamp -
                      (bc.blocks.getD (bc.blocks.length - DIFFICULTY_UPDATE_INTERVAL)
                        default).header.timestamp).tdiv 1000000000).toNat
                    (IDEAL_BLOCK_TIME * DIFFICULTY_UPDATE_INTERVAL)).2))
              MIN_TARGET)
          else bc.target } := by
  by_cases h0 : bc.blocks = []
  · rw [Blockchain.try_adjust_target, if_pos h0, if_neg (by simp [h0])]
  · by_cases h1 : bc.blocks.length % DIFFICULTY_UPDATE_INTERVAL = 0
    · rw [try_adjust_target_fired bc h0 h1 (hts h0 h1), if_pos ⟨h0, h1⟩]
    · rw [Blockchain.try_adjust_target, if_neg h0, if_pos h1,
        if_neg (fun hc => h1 hc.2)]

theorem c6_chain_len : c6_chain.blocks.length = 2016 := by
  rw [show c6_chain.blocks =
    c6_first_block :: (List.replicate 2014 c6_first_block ++ [c6_tip_block]) from rfl]
  simp

theorem c6_chain_first :
    c6_chain.blocks.getD (c6_chain.blocks.length - DIFFICULTY_UPDATE_INTERVAL) default =
      c6_first_block := by
  rw [c6_chain_len]
  rw [show (2016 - DIFFICULTY_UPDATE_INTERVAL : Nat) = 0 from by decide]
  rfl

theorem c6_chain_last : c6_chain.blocks.getLast?.getD default = c6_tip_block := by
  rw [show c6_chain.blocks =
    (c6_first_block :: List.replicate 2014 c6_first_block) ++ [c6_tip_block] from
    (List.cons_append c6_first_block (List.replicate 2014 c6_first_block) [c6_tip_block])]
  rw [List.getLast?_concat]
  rfl

theorem c6_chain_hts : c6_chain.blocks ≠ [] →
    c6_chain.blocks.length % DIFFICULTY_UPDATE_INTERVAL = 0 →
    (c6_chain.blocks.getD (c6_chain.blocks.length - DIFFICULTY_UPDATE_INTERVAL)
      default).header.timestamp ≤
      (c6_chain.blocks.getLast?.getD default).header.timestamp := by
  intro _ _
  rw [c6_chain_first, c6_chain_last]
  rw [show c6_first_block.header.timestamp = 0 from rfl]
  rw [show c6_tip_block.header.timestamp = 604800000000000 from rfl]
  decide

theorem c6_try_adjust_target_witness :
    c6_chain.target * 4 < 2 ^ 256 ∧
    (c6_chain.blocks ≠ [] → c6_chain.blocks.length % DIFFICULTY_UPDATE_INTERVAL = 0 →
      (c6_chain.blocks.getD (c6_chain.blocks.length - DIFFICULTY_UPDATE_INTERVAL)
        default).header.timestamp ≤
        (c6_chain.blocks.getLast?.getD default).header.timestamp) ∧
    Blockchain.try_adjust_target c6_chain =
      { c6_chain with target :=
          if c6_chain.blocks ≠ [] ∧
              c6_chain.blocks.length % DIFFICULTY_UPDATE_INTERVAL = 0 then
            (min
              (clamp_val c6_chain.target
                (c6_chain.target *
                  (bigdec_div_mantissa
                    (((c6_chain.blocks.getLast?.getD default).header.timestamp -
                      (c6_chain.blocks.getD (c6_chain.blocks.length - DIFFICULTY_UPDATE_INTERVAL)
                        default).header.timestamp).tdiv 1000000000).toNat
                    (IDEAL_BLOCK_TIME * DIFFICULTY_UPDATE_INTERVAL)).1 /
                  10 ^ (bigdec_div_mantissa
                    (((c6_chain.blocks.getLast?.getD default).header.timestamp -
                      (c6_chain.blocks.getD (c6_chain.blocks.length - DIFFICULTY_UPDATE_INTERVAL)
                        default).header.timestamp).tdiv 1000000000).toNat
                    (IDEAL_BLOCK_TIME * DIFFICULTY_UPDATE_INTERVAL)).2))
              MIN_TARGET)
          else c6_chain.target } ∧
    (Blockchain.try_adjust_target c6_chain).target = MIN_TARGET / 2 := by
  have happ := c6_try_adjust_target c6_chain (by decide) c6_chain_hts
  refine ⟨by decide, c6_chain_hts, happ, ?_⟩
  rw [happ]
  rw [if_pos ⟨by rw [show c6_chain.blocks =
      c6_first_block :: (List.replicate 2014 c6_first_block ++ [c6_tip_block]) from rfl]; simp,
    by rw [c6_chain_len]; decide⟩]
  rw [c6_chain_first, c6_chain_last]
  rw [show c6_first_block.header.timestamp = 0 from rfl]
  rw [show c6_tip_block.header.timestamp = 604800000000000 from rfl]
  rw [show c6_chain.target = MIN_TARGET from rfl]
  decide

theorem c6x_chain_len : c6x_chain.blocks.length = 2016 := by
  rw [show c6x_chain.blocks =
    c6x_first_block :: (List.replicate 2014 c6x_first_block ++ [c6x_tip_block]) from rfl]
  simp

theorem c6x_chain_first :
    c6x_chain.blocks.getD (c6x_chain.blocks.length - DIFFICULTY_UPDATE_INTERVAL) default =
      c6x_first_block := by
  rw [c6x_chain_len]
  rw [show (2016 - DIFFICULTY_UPDATE_INTERVAL : Nat) = 0 from by decide]
  rfl

theorem c6x_chain_last : c6x_chain.blocks.getLast?.getD default = c6x_tip_block := by
  rw [show c6x_chain.blocks =
    (c6x_first_block :: List.replicate 2014 c6x_first_block) ++ [c6x_tip_block] from
    (List.cons_append c6x_first_block (List.replicate 2014 c6x_first_block) [c6x_tip_block])]
  rw [List.getLast?_concat]
  rfl

/-- C6 counterexample: on a 2016-block chain at target 1 209 600 whose window
spans 432 000 s, every hypothesis of the claim holds, yet the code's new
target is 431 999 — one below the exact floor 432 000 that the claim's
formula `min(clamp(floor(target * dt / T_ideal)), MIN_TARGET)` predicts —
because `BigDecimal` carries 432000/1209600 = 5/14 to only 100 significant
digits and the first dropped digit (a 4) rounds down, leaving the quotient
strictly below 5/14. -/
theorem c6_try_adjust_target_cex :
    (c6x_chain.target * 4 < 2 ^ 256 ∧
      (c6x_chain.blocks ≠ [] → c6x_chain.blocks.length % DIFFICULTY_UPDATE_INTERVAL = 0 →
        (c6x_chain.blocks.getD (c6x_chain.blocks.length - DIFFICULTY_UPDATE_INTERVAL)
          default).header.timestamp ≤
          (c6x_chain.blocks.getLast?.getD default).header.timestamp) ∧
      c6x_chain.blocks ≠ [] ∧
      c6x_chain.blocks.length % DIFFICULTY_UPDATE_INTERVAL = 0) ∧
    (Blockchain.try_adjust_target c6x_chain).target = 431999 ∧
    min
      (clamp_val c6x_chain.target
        (c6x_chain.target *
          (((c6x_chain.blocks.getLast?.getD default).header.timestamp -
            (c6x_chain.blocks.getD (c6x_chain.blocks.length - DIFFICULTY_UPDATE_INTERVAL)
              default).header.timestamp).tdiv 1000000000).toNat /
          (IDEAL_BLOCK_TIME * DIFFICULTY_UPDATE_INTERVAL)))
      MIN_TARGET = 432000 ∧
    (431999 : Nat) ≠ 432000 := by
  have hne : c6x_chain.blocks ≠ [] := by
    rw [show c6x_chain.blocks =
      c6x_first_block :: (List.replicate 2014 c6x_first_block ++ [c6x_tip_block]) from rfl]
    simp
  have hlen : c6x_chain.blocks.length % DIFFICULTY_UPDATE_INTERVAL = 0 := by
    rw [c6x_chain_len]
    decide
  have hts : (c6x_chain.blocks.getD (c6x_chain.blocks.length - DIFFICULTY_UPDATE_INTERVAL)
      default).header.timestamp ≤
      (c6x_chain.blocks.getLast?.getD default).header.timestamp := by
    rw [c6x_chain_first, c6x_chain_last]
    rw [show c6x_first_block.header.timestamp = 0 from rfl]
    rw [show c6x_tip_block.header.timestamp = 432000000000000 from rfl]
    decide
  refine ⟨⟨by decide, fun _ _ => hts, hne, hlen⟩, ?_, ?_, by decide⟩
  · rw [try_adjust_target_fired c6x_chain hne hlen hts]
    rw [c6x_chain_first, c6x_chain_last]
    rw [show c6x_first_block.header.timestamp = 0 from rfl]
    rw [show c6x_tip_block.header.timestamp = 432000000000000 from rfl]
    rw [show c6x_chain.target = 1209600 from rfl]
    decide
  · rw [c6x_chain_first, c6x_chain_last]
    rw [show c6x_first_block.header.timestamp = 0 from rfl]
    rw [show c6x_tip_block.header.timestamp = 432000000000000 from rfl]
    rw [show c6x_chain.target = 1209600 from rfl]
    decide

theorem rt_output : ∀ o : TransactionOutput, decode_output (encode_output o) = some o := by
  rintro ⟨v, u, p⟩
  rfl

theorem rt_input : ∀ i : TransactionInput, decode_input (encode_input i) = some i := by
  rintro ⟨h, s⟩
  rfl

theorem rt_transaction : ∀ t : Transaction,
    decode_transaction (encode_transaction t) = some t := by
  rintro ⟨ins, outs⟩
  simp only [encode_transaction, decode_transaction]
  rw [decode_list_map decode_input encode_input rt_input,
    decode_list_map decode_output encode_output rt_output]

theorem rt_header : ∀ h : BlockHeader, decode_header (encode_header h) = some h := by
  rintro ⟨ts, n, pv, mr, tg⟩
  rfl

theorem rt_block : ∀ b : Block, decode_block (encode_block b) = some b := by
  rintro ⟨hd, txs⟩
  simp only [encode_block, decode_block, rt_header]
  rw [decode_list_map decode_transaction encode_transaction rt_transaction]

theorem rt_utxo_entries : ∀ u : Utxos,
    decode_utxo_entries (u.map encode_utxo_entry) = some u := by
  intro u
  induction u with
  | nil => rfl
  | cons e rest ih =>
    obtain ⟨h, flag, o⟩ := e
    simp only [List.map_cons, encode_utxo_entry, decode_utxo_entries, rt_output, ih]

theorem rt_output_flag : ∀ e : TransactionOutput × Bool,
    decode_output_flag (encode_output_flag e) = some e := by
  rintro ⟨o, b⟩
  simp only [encode_output_flag, decode_output_flag, rt_output]

theorem rt_scalar : ∀ n : Nat, decode_scalar (CborValue.nat n) = some n := by
  intro n
  rfl

theorem rt_flag_list : ∀ us : List (TransactionOutput × Bool),
    decode_flag_list (.array (us.map encode_output_flag)) = some us := by
  intro us
  simp only [decode_flag_list]
  rw [decode_list_map decode_output_flag encode_output_flag rt_output_flag]

theorem rt_scalar_list : ∀ ns : List Nat,
    decode_scalar_list (.array (ns.map CborValue.nat)) = some ns := by
  intro ns
  simp only [decode_scalar_list]
  rw [decode_list_map decode_scalar CborValue.nat rt_scalar]

theorem rt_message : ∀ m : Message, Message.decode (Message.encode m) = some m := by
  intro m
  cases m with
  | FetchUTXOs pk => rfl
  | UTXOs us =>
    show (decode_flag_list (.array (us.map encode_output_flag))).map Message.UTXOs =
      some (Message.UTXOs us)
    rw [rt_flag_list]
    rfl
  | SubmitTransaction t =>
    show (decode_transaction (encode_transaction t)).map Message.SubmitTransaction =
      some (Message.SubmitTransaction t)
    rw [rt_transaction]
    rfl
  | NewTransaction t =>
    show (decode_transaction (encode_transaction t)).map Message.NewTransaction =
      some (Message.NewTransaction t)
    rw [rt_transaction]
    rfl
  | FetchTemplate pk => rfl
  | Template b =>
    show (decode_block (encode_block b)).map Message.Template = some (Message.Template b)
    rw [rt_block]
    rfl
  | ValidateTemplate b =>
    show (decode_block (encode_block b)).map Message.ValidateTemplate =
      some (Message.ValidateTemplate b)
    rw [rt_block]
    rfl
  | TemplateValidity v => rfl
  | SubmitTemplate b =>
    show (decode_block (encode_block b)).map Message.SubmitTemplate =
      some (Message.SubmitTemplate b)
    rw [rt_block]
    rfl
  | DiscoverNodes => rfl
  | NodeList ns =>
    show (decode_scalar_list (.array (ns.map CborValue.nat))).map Message.NodeList =
      some (Message.NodeList ns)
    rw [rt_scalar_list]
    rfl
  | AskDifference h => rfl
  | Difference d => rfl
  | FetchBlock i => rfl
  | NewBlock b =>
    show (decode_block (encode_block b)).map Message.NewBlock = some (Message.NewBlock b)
    rw [rt_block]
    rfl

/-- C7 (amended): serialising then deserialising a `Transaction`, `Block` or
`Message` yields an equal value; a `Blockchain` round-trips to the same
blocks, UTXO index and target but with an *empty* mempool, because the
`mempool` field carries `#[serde(default, skip_serializing)]` — it is never
written and is defaulted on load.  Equality with the original therefore holds
exactly when the mempool was empty. -/
theorem c7_roundtrip_amended :
    (∀ t : Transaction, decode_transaction (encode_transaction t) = some t) ∧
    (∀ b : Block, decode_block (encode_block b) = some b) ∧
    (∀ m : Message, Message.decode (Message.encode m) = some m) ∧
    (∀ bc : Blockchain, decode_blockchain (encode_blockchain bc) =
      some { bc with mempool := [] }) := by
  refine ⟨rt_transaction, rt_block, rt_message, ?_⟩
  rintro ⟨utxos, tg, blocks, mempool⟩
  simp only [encode_blockchain, decode_blockchain, rt_utxo_entries]
  rw [decode_list_map decode_block encode_block rt_block]

/-- C7 as stated is false at a concrete input: a `Blockchain` whose mempool is
non-empty does not round-trip to an equal value — the mempool comes back
empty. -/
theorem c7_roundtrip_cex :
    decode_blockchain (encode_blockchain c7_chain) ≠ some c7_chain := by
  decide
